import Mathlib

/-!
Verification of the BeerSmith `.bsmx` parser (`src/beersmith_mcp/parser.py`).

The Python source is shallowly embedded: pure helper functions become Lean
functions over `String` / `List Char`, the filesystem and the mtime cache
become explicit state values, exceptions become `Option`/error codes.
External libraries (lxml recovery parsing, the Python standard library
`html.unescape`) and the repository file `models.py` (absent from `src/`,
only its importers are present) are either taken as function parameters or
modelled from the spec; such definitions are marked in their doc comments.
-/

namespace BeerSmith

/-! ## Basic string machinery shared by all embedded functions -/

/-- Substring test on character lists: `occursIn needle hay` is the embedding
of the Python expression `needle in hay`. -/
def occursIn (needle hay : List Char) : Bool :=
  match hay with
  | [] => needle.isEmpty
  | _ :: t => needle.isPrefixOf hay || occursIn needle t

/-- `pyIn needle hay` embeds Python `needle in hay` on strings. -/
def pyIn (needle hay : String) : Bool :=
  occursIn needle.data hay.data

/-- Index of the first occurrence of `needle` at or after the start of `hay`,
if any (leftmost-match search, as Python `str.find` and `re` scanning use). -/
def firstOccIdx (needle hay : List Char) : Option Nat :=
  match hay with
  | [] => if needle.isEmpty then some 0 else none
  | _ :: t =>
    if needle.isPrefixOf hay then some 0
    else (firstOccIdx needle t).map (· + 1)

/-- Python whitespace for `str.strip` / `\s` (ASCII subset, which is all the
source files contain). -/
def isPyWs (c : Char) : Bool :=
  c = ' ' || c = '\t' || c = '\n' || c = '\r' || c = '\x0b' || c = '\x0c'

/-- Strip leading and trailing whitespace, as Python `int()` / `float()`
do before parsing. -/
def stripWs (l : List Char) : List Char :=
  ((l.dropWhile isPyWs).reverse.dropWhile isPyWs).reverse

/-- No two adjacent underscores (part of Python numeric-literal syntax). -/
def noDoubleUnderscore : List Char → Bool
  | [] => true
  | [_] => true
  | a :: b :: t => !(a = '_' && b = '_') && noDoubleUnderscore (b :: t)

/-- A valid Python digit group: nonempty, made of ASCII digits with optional
single underscores strictly between digits. -/
def digitsOk (l : List Char) : Bool :=
  match l with
  | [] => false
  | _ =>
    l.all (fun c => c.isDigit || c = '_')
      && (l.head?.elim false Char.isDigit)
      && (l.getLast?.elim false Char.isDigit)
      && noDoubleUnderscore l

/-- Numeric value of a digit group, ignoring underscores. -/
def digitsVal (l : List Char) : Nat :=
  l.foldl (fun acc c => if c = '_' then acc else acc * 10 + (c.toNat - 48)) 0

/-- Parse a digit group (Python digit-run syntax) to its value. -/
def digitGroup? (l : List Char) : Option Nat :=
  if digitsOk l then some (digitsVal l) else none

/-- Embedding of Python `int(text)` restricted to base-10 string input:
strip whitespace, optional sign, then a digit group.  Returns `none` where
Python raises `ValueError`. -/
def pyIntParse (s : String) : Option Int :=
  match stripWs s.data with
  | '+' :: t => (digitGroup? t).map Int.ofNat
  | '-' :: t => (digitGroup? t).map (fun n => -(n : Int))
  | t => (digitGroup? t).map Int.ofNat

/-- Result of Python `float(text)`.  Finite values are represented exactly by
the rational value denoted by the literal (the claims under verification never
depend on IEEE rounding of the stored double). -/
inductive PyFloat where
  | finite (q : ℚ)
  | infinite (neg : Bool)
  | nan
  deriving DecidableEq, Repr

/-- Split a character list at the first occurrence of a separator character,
if present. -/
def splitAtChar (sep : Char) (l : List Char) : Option (List Char × List Char) :=
  match l with
  | [] => none
  | c :: t =>
    if c = sep then some ([], t)
    else (splitAtChar sep t).map (fun p => (c :: p.1, p.2))

/-- Count of actual digits in a digit group (underscores excluded). -/
def digitCount (l : List Char) : Nat :=
  (l.filter Char.isDigit).length

/-- Mantissa part of a Python float literal: `digits`, `digits.`,
`digits.digits` or `.digits`, each digit run obeying underscore rules.
Returns the exact rational value. -/
def pyMantissa? (l : List Char) : Option ℚ :=
  match splitAtChar '.' l with
  | none => (digitGroup? l).map (fun n => (n : ℚ))
  | some (ip, fp) =>
    match ip, fp with
    | [], [] => none
    | [], _ => (digitGroup? fp).map (fun f => (f : ℚ) / (10 : ℚ) ^ digitCount fp)
    | _, [] => (digitGroup? ip).map (fun n => (n : ℚ))
    | _, _ =>
      match digitGroup? ip, digitGroup? fp with
      | some n, some f => some ((n : ℚ) + (f : ℚ) / (10 : ℚ) ^ digitCount fp)
      | _, _ => none

/-- Exponent part (after `e`/`E`): optional sign and a digit group. -/
def pyExponent? (l : List Char) : Option Int :=
  match l with
  | '+' :: t => (digitGroup? t).map Int.ofNat
  | '-' :: t => (digitGroup? t).map (fun n => -(n : Int))
  | t => (digitGroup? t).map Int.ofNat

/-- Lower-case a character list (ASCII). -/
def lowerAll (l : List Char) : List Char := l.map Char.toLower

/-- Embedding of Python `float(text)`: strip whitespace, optional sign, then
either `inf`/`infinity`/`nan` (case-insensitive) or a decimal mantissa with
optional exponent.  Returns `none` where Python raises `ValueError`. -/
def pyFloatParse (s : String) : Option PyFloat :=
  let l := stripWs s.data
  let (neg, body) :=
    match l with
    | '+' :: t => (false, t)
    | '-' :: t => (true, t)
    | t => (false, t)
  let low := lowerAll body
  if low = "inf".data || low = "infinity".data then some (.infinite neg)
  else if low = "nan".data then some .nan
  else
    let (mant, expo) :=
      match splitAtChar 'e' low with
      | some (m, e) => (m, some e)
      | none =>
        match splitAtChar 'E' body with
        | some (m, e) => (lowerAll m, some (lowerAll e))
        | none => (low, none)
    match pyMantissa? mant with
    | none => none
    | some q =>
      match expo with
      | none => some (.finite (if neg then -q else q))
      | some e =>
        match pyExponent? e with
        | none => none
        | some k =>
          let v := q * (10 : ℚ) ^ (k : ℤ)
          some (.finite (if neg then -v else v))

/-- A value produced by the parser's scalar normalizer
(`BeerSmithParser._convert_value`). -/
inductive PyVal where
  | int (n : Int)
  | float (f : PyFloat)
  | str (s : String)
  deriving DecidableEq, Repr

/-- Embedding of `BeerSmithParser._convert_value` (parser.py:162-181):
empty text stays the empty string; text without a `.` is first tried as an
integer; any remaining text is tried as a float; otherwise the original
string is returned unchanged. -/
def convertValue (text : String) : PyVal :=
  if text = "" then .str ""
  else if text.data.contains '.' then
    match pyFloatParse text with
    | some f => .float f
    | none => .str text
  else
    match pyIntParse text with
    | some n => .int n
    | none =>
      match pyFloatParse text with
      | some f => .float f
      | none => .str text

/-- C9: for every text input, `_convert_value` returns the empty string for
empty input; the parsed integer when the text contains no `.` character and
parses as an integer; otherwise the parsed float when the text parses as a
float; otherwise the original string unchanged. -/
theorem convertValue_spec (t : String) :
    (t = "" → convertValue t = .str "")
    ∧ (∀ n : Int, ¬ t.data.contains '.' → pyIntParse t = some n →
        convertValue t = .int n)
    ∧ (∀ f : PyFloat, (t.data.contains '.' ∨ pyIntParse t = none) →
        pyFloatParse t = some f → convertValue t = .float f)
    ∧ ((t.data.contains '.' ∨ pyIntParse t = none) → pyFloatParse t = none →
        t ≠ "" → convertValue t = .str t) := by
  refine ⟨?_, ?_, ?_, ?_⟩
  · intro h; simp [convertValue, h]
  · intro n hdot hint
    have ht : t ≠ "" := by
      intro h; subst h; simp [pyIntParse, stripWs, digitGroup?, digitsOk] at hint
    simp only [convertValue, if_neg ht]
    rw [if_neg (by simpa using hdot), hint]
  · intro f hcase hfl
    have ht : t ≠ "" := by
      intro h; subst h
      simp [pyFloatParse, stripWs, pyMantissa?, splitAtChar, digitGroup?, digitsOk,
        lowerAll] at hfl
    simp only [convertValue, if_neg ht]
    rcases hcase with h | h
    · rw [if_pos (by simpa using h), hfl]
    · by_cases hdot : t.data.contains '.' = true
      · rw [if_pos (by simpa using hdot), hfl]
      · rw [if_neg (by simpa using hdot), h, hfl]
  · intro hcase hfl ht
    simp only [convertValue, if_neg ht]
    rcases hcase with h | h
    · rw [if_pos (by simpa using h), hfl]
    · by_cases hdot : t.data.contains '.' = true
      · rw [if_pos (by simpa using hdot), hfl]
      · rw [if_neg (by simpa using hdot), h, hfl]

/-- Witness for C9: the theorem applied at the spec's concrete examples
`""`, `"12"`, `"3.14"` and `"IBU"`. -/
theorem convertValue_spec_witness :
    convertValue "" = .str ""
    ∧ convertValue "12" = .int 12
    ∧ convertValue "3.14" = .float (.finite (157 / 50 : ℚ))
    ∧ convertValue "IBU" = .str "IBU" :=
  ⟨(convertValue_spec "").1 rfl,
   (convertValue_spec "12").2.1 12 (by decide) (by decide),
   (convertValue_spec "3.14").2.2.1 (.finite (157 / 50 : ℚ)) (by decide)
     (by simp [pyFloatParse, stripWs, lowerAll, splitAtChar, pyMantissa?, digitGroup?,
           digitsOk, noDoubleUnderscore, digitsVal, digitCount, isPyWs]
         norm_num),
   (convertValue_spec "IBU").2.2.2 (by decide) (by decide) (by decide)⟩

/-! ## Catalog lookups (hops, recipes) -/

/-- ASCII lower-casing of a string, embedding Python `str.lower()` on the
ASCII names the catalogs contain. -/
def pyLower (s : String) : String := ⟨lowerAll s.data⟩

/-- Strict lexicographic comparison by code point, as Python string `<`. -/
def listLt : List Char → List Char → Bool
  | [], [] => false
  | [], _ :: _ => true
  | _ :: _, [] => false
  | a :: as, b :: bs => if a = b then listLt as bs else decide (a < b)

/-- Python string `<`. -/
def strLt (a b : String) : Bool := listLt a.data b.data

/-- Stable insertion into a sorted list: the new element goes before the
first element not strictly below it (keeping Python `sorted` stability). -/
def insertSorted (lt : α → α → Bool) (x : α) : List α → List α
  | [] => [x]
  | y :: ys => if lt y x then y :: insertSorted lt x ys else x :: y :: ys

/-- Stable sort, the embedding of Python `sorted(l, key)` with `lt` the
strict comparison induced by the key. -/
def pySort (lt : α → α → Bool) (l : List α) : List α :=
  l.foldr (insertSorted lt) []

theorem mem_insertSorted (lt : α → α → Bool) (x a : α) (l : List α) :
    a ∈ insertSorted lt x l ↔ a = x ∨ a ∈ l := by
  induction l with
  | nil => simp [insertSorted]
  | cons y ys ih =>
    simp only [insertSorted]
    by_cases h : lt y x = true
    · rw [if_pos h]
      rw [List.mem_cons, ih, List.mem_cons]
      tauto
    · rw [if_neg h]
      rw [List.mem_cons, List.mem_cons]

theorem mem_pySort (lt : α → α → Bool) (a : α) (l : List α) :
    a ∈ pySort lt l ↔ a ∈ l := by
  induction l with
  | nil => simp [pySort]
  | cons y ys ih => simp [pySort, mem_insertSorted] at *; tauto

theorem pySort_eq_nil (lt : α → α → Bool) (l : List α) :
    pySort lt l = [] ↔ l = [] := by
  cases l with
  | nil => simp [pySort]
  | cons y ys =>
    simp only [pySort, List.foldr]
    constructor
    · intro h
      have : y ∈ insertSorted lt y (List.foldr (insertSorted lt) [] ys) := by
        rw [mem_insertSorted]; exact Or.inl rfl
      rw [h] at this; cases this
    · intro h; cases h

/-- A hop catalog entry, carrying the fields the query layer reads
(its full pydantic schema lives in the absent `models.py`; the lookup code
under test touches only `name`, `origin` and `type`). -/
structure Hop where
  name : String
  origin : String
  type : Int
  deriving DecidableEq, Repr

/-- The search filter of `get_hops` (parser.py:213-215): case-insensitive
substring match on name or origin. -/
def hopSearchMatch (q : String) (h : Hop) : Bool :=
  pyIn (pyLower q) (pyLower h.name) || pyIn (pyLower q) (pyLower h.origin)

/-- Embedding of `BeerSmithParser.get_hops` (parser.py:204-221) applied to an
already-extracted catalog: optional substring search, optional type filter,
then sort by name.  An empty search string is falsy in Python, skipping the
filter. -/
def getHops (catalog : List Hop) (search : Option String) (hopType : Option Int) :
    List Hop :=
  let hops := catalog
  let hops :=
    match search with
    | none => hops
    | some s => if s = "" then hops else hops.filter (hopSearchMatch s)
  let hops :=
    match hopType with
    | none => hops
    | some t => hops.filter (fun h => h.type == t)
  pySort (fun a b => strLt a.name b.name) hops

/-- The loop condition of `get_hop`: case-insensitive exact name equality. -/
def hopExact (q : String) (h : Hop) : Bool :=
  pyLower h.name == pyLower q

/-- Embedding of `BeerSmithParser.get_hop` (parser.py:223-229): search-filter
the catalog by the name, return the first case-insensitive exact name match,
else the first filtered entry, else nothing. -/
def getHop (catalog : List Hop) (name : String) : Option Hop :=
  let hops := getHops catalog (some name) none
  match hops.find? (hopExact name) with
  | some h => some h
  | none => hops.head?

/-- Modelled from the spec: the lookup chain exactly as claim C2 words it —
case-insensitive exact name match, else first case-insensitive substring
match, else the first result of an unfiltered search, with a not-found
result only when the catalog has no entry at all. -/
def claimedHopLookup (catalog : List Hop) (name : String) : Option Hop :=
  match catalog.find? (hopExact name) with
  | some h => some h
  | none =>
    match (getHops catalog (some name) none).head? with
    | some h => some h
    | none => (getHops catalog none none).head?

theorem isPrefixOf_self [DecidableEq α] (l : List α) : l.isPrefixOf l = true := by
  induction l with
  | nil => rfl
  | cons a t ih => simp [List.isPrefixOf, ih]

theorem occursIn_self (l : List Char) : occursIn l l = true := by
  cases l with
  | nil => rfl
  | cons c t => simp [occursIn, isPrefixOf_self]

/-- The fixed hop catalog entry used in the C2 counterexample. -/
def cascadeHop : Hop := { name := "Cascade", origin := "US", type := 0 }

/-- A second hop whose name contains the first one, for the priority check. -/
def cascadeUSHop : Hop := { name := "Cascade (US)", origin := "US", type := 0 }

/-- Counterexample for C2: the claim says that when no substring match
exists, `get_hop` falls back to the first result of an unfiltered search, so
a nonempty catalog can never yield not-found.  The code has no such
fallback: on catalog `[Cascade]` and query `"zzz"` it returns nothing, while
the chain the claim describes returns `Cascade`. -/
theorem getHop_counterexample :
    getHop [cascadeHop] "zzz" = none
    ∧ claimedHopLookup [cascadeHop] "zzz" = some cascadeHop := by
  constructor <;> decide

/-- C2 (amended): `get_hop` first returns an entry whose name equals the
query case-insensitively if one exists, otherwise the first entry whose name
or origin contains the query case-insensitively; it returns not-found
exactly when no such substring match exists (there is no unfiltered-search
fallback), in particular an empty catalog yields not-found rather than an
error. -/
theorem getHop_lookup_chain (catalog : List Hop) (q : String) (hq : q ≠ "") :
    (∀ h ∈ catalog, hopExact q h = true →
      ∃ r, getHop catalog q = some r ∧ hopExact q r = true)
    ∧ ((∀ h ∈ catalog, ¬ hopExact q h = true) →
      ∀ h ∈ catalog, hopSearchMatch q h = true →
      ∃ r, getHop catalog q = some r ∧ hopSearchMatch q r = true)
    ∧ (getHop catalog q = none ↔ ∀ h ∈ catalog, ¬ hopSearchMatch q h = true) := by
  have hfil : getHops catalog (some q) none
      = pySort (fun a b => strLt a.name b.name) (catalog.filter (hopSearchMatch q)) := by
    simp [getHops, hq]
  have hmemf : ∀ h : Hop, h ∈ getHops catalog (some q) none
      ↔ h ∈ catalog ∧ hopSearchMatch q h = true := by
    intro h
    rw [hfil, mem_pySort, List.mem_filter]
  have hexact_sub : ∀ h : Hop, hopExact q h = true → hopSearchMatch q h = true := by
    intro h hx
    have hn : pyLower h.name = pyLower q := by
      simpa [hopExact] using hx
    simp [hopSearchMatch, hn, pyIn, occursIn_self]
  refine ⟨?_, ?_, ?_⟩
  · intro h hmem hex
    have hin : h ∈ getHops catalog (some q) none := (hmemf h).2 ⟨hmem, hexact_sub h hex⟩
    have hsome : ((getHops catalog (some q) none).find? (hopExact q)).isSome = true :=
      List.find?_isSome.2 ⟨h, hin, hex⟩
    obtain ⟨r, hr⟩ := Option.isSome_iff_exists.1 hsome
    refine ⟨r, ?_, List.find?_some hr⟩
    simp only [getHop, hr]
  · intro hnone h hmem hsub
    have hfind : (getHops catalog (some q) none).find? (hopExact q) = none := by
      rw [List.find?_eq_none]
      intro x hx
      exact hnone x ((hmemf x).1 hx).1
    have hin : h ∈ getHops catalog (some q) none := (hmemf h).2 ⟨hmem, hsub⟩
    obtain ⟨r, hr⟩ : ∃ r, (getHops catalog (some q) none).head? = some r := by
      cases hcase : getHops catalog (some q) none with
      | nil => rw [hcase] at hin; cases hin
      | cons a t => exact ⟨a, rfl⟩
    refine ⟨r, ?_, ((hmemf r).1 (List.mem_of_mem_head? hr)).2⟩
    simp only [getHop, hfind, hr]
  · constructor
    · intro hres h hmem hsub
      have hin : h ∈ getHops catalog (some q) none := (hmemf h).2 ⟨hmem, hsub⟩
      simp only [getHop] at hres
      cases hfind : (getHops catalog (some q) none).find? (hopExact q) with
      | some r => rw [hfind] at hres; cases hres
      | none =>
        rw [hfind] at hres
        rw [List.head?_eq_none_iff] at hres
        rw [hres] at hin
        cases hin
    · intro hall
      have hempty : getHops catalog (some q) none = [] := by
        rw [hfil, pySort_eq_nil, List.filter_eq_nil_iff]
        exact hall
      simp only [getHop, hempty]
      rfl

/-- Witness for C2 (amended): on catalog `[Cascade (US), Cascade]`, looking
up `"cascade"` returns the case-insensitive exact match. -/
theorem getHop_lookup_chain_witness :
    ∃ r, getHop [cascadeUSHop, cascadeHop] "cascade" = some r
      ∧ hopExact "cascade" r = true :=
  (getHop_lookup_chain [cascadeUSHop, cascadeHop] "cascade" (by decide)).1
    cascadeHop (by decide) (by decide)

/-- A recipe as the lookup layer sees it: identifier, name and folder path
(the full pydantic schema lives in the absent `models.py`; `get_recipe`
touches only `id` and `name`, the tree walker only `folder`). -/
structure Recipe where
  id : String
  name : String
  folder : String
  deriving DecidableEq, Repr

/-- Embedding of `BeerSmithParser.get_recipe` (parser.py:708-738) applied to
the already-walked local and cloud recipe lists: exact id match first, then
case-insensitive exact name match, then case-insensitive substring name
match, else nothing.  The combined list is local recipes followed by cloud
recipes, exactly as the source builds it. -/
def getRecipe (localRecipes cloudRecipes : List Recipe) (q : String) : Option Recipe :=
  let recipes := localRecipes ++ cloudRecipes
  match recipes.find? (fun r => r.id == q) with
  | some r => some r
  | none =>
    match recipes.find? (fun r => pyLower r.name == pyLower q) with
    | some r => some r
    | none => recipes.find? (fun r => pyIn (pyLower q) (pyLower r.name))

/-- C10: `get_recipe` prefers an exact (case-sensitive) id match over any
name match, then tries case-insensitive exact name match, then
case-insensitive substring name match, and returns nothing only when all
three fail on the combined local-and-cloud catalog. -/
theorem getRecipe_priority (localRecipes cloudRecipes : List Recipe) (q : String) :
    (∀ r ∈ localRecipes ++ cloudRecipes, r.id = q →
      ∃ s, getRecipe localRecipes cloudRecipes q = some s ∧ s.id = q)
    ∧ ((∀ r ∈ localRecipes ++ cloudRecipes, r.id ≠ q) →
      ∀ r ∈ localRecipes ++ cloudRecipes, pyLower r.name = pyLower q →
      ∃ s, getRecipe localRecipes cloudRecipes q = some s ∧ pyLower s.name = pyLower q)
    ∧ ((∀ r ∈ localRecipes ++ cloudRecipes, r.id ≠ q) →
      (∀ r ∈ localRecipes ++ cloudRecipes, pyLower r.name ≠ pyLower q) →
      ∀ r ∈ localRecipes ++ cloudRecipes, pyIn (pyLower q) (pyLower r.name) = true →
      ∃ s, getRecipe localRecipes cloudRecipes q = some s
        ∧ pyIn (pyLower q) (pyLower s.name) = true)
    ∧ (getRecipe localRecipes cloudRecipes q = none ↔
      ∀ r ∈ localRecipes ++ cloudRecipes,
        r.id ≠ q ∧ pyLower r.name ≠ pyLower q
          ∧ ¬ pyIn (pyLower q) (pyLower r.name) = true) := by
  refine ⟨?_, ?_, ?_, ?_⟩
  · intro r hmem hid
    have hsome : ((localRecipes ++ cloudRecipes).find? (fun r => r.id == q)).isSome = true :=
      List.find?_isSome.2 ⟨r, hmem, by simp [hid]⟩
    obtain ⟨s, hs⟩ := Option.isSome_iff_exists.1 hsome
    have hsid : s.id = q := by simpa using List.find?_some hs
    exact ⟨s, by simp only [getRecipe, hs], hsid⟩
  · intro hno r hmem hname
    have hfind1 : (localRecipes ++ cloudRecipes).find? (fun r => r.id == q) = none := by
      rw [List.find?_eq_none]
      intro x hx
      simp [hno x hx]
    have hsome : ((localRecipes ++ cloudRecipes).find?
        (fun r => pyLower r.name == pyLower q)).isSome = true :=
      List.find?_isSome.2 ⟨r, hmem, by simp [hname]⟩
    obtain ⟨s, hs⟩ := Option.isSome_iff_exists.1 hsome
    have hsname : pyLower s.name = pyLower q := by simpa using List.find?_some hs
    exact ⟨s, by simp only [getRecipe, hfind1, hs], hsname⟩
  · intro hno hnoname r hmem hsub
    have hfind1 : (localRecipes ++ cloudRecipes).find? (fun r => r.id == q) = none := by
      rw [List.find?_eq_none]
      intro x hx
      simp [hno x hx]
    have hfind2 : (localRecipes ++ cloudRecipes).find?
        (fun r => pyLower r.name == pyLower q) = none := by
      rw [List.find?_eq_none]
      intro x hx
      simp [hnoname x hx]
    have hsome : ((localRecipes ++ cloudRecipes).find?
        (fun r => pyIn (pyLower q) (pyLower r.name))).isSome = true :=
      List.find?_isSome.2 ⟨r, hmem, hsub⟩
    obtain ⟨s, hs⟩ := Option.isSome_iff_exists.1 hsome
    exact ⟨s, by simp only [getRecipe, hfind1, hfind2, hs],
      by simpa using List.find?_some hs⟩
  · constructor
    · intro hres r hmem
      simp only [getRecipe] at hres
      cases h1 : (localRecipes ++ cloudRecipes).find? (fun r => r.id == q) with
      | some s => rw [h1] at hres; cases hres
      | none =>
        rw [h1] at hres
        cases h2 : (localRecipes ++ cloudRecipes).find?
            (fun r => pyLower r.name == pyLower q) with
        | some s => rw [h2] at hres; cases hres
        | none =>
          rw [h2] at hres
          rw [List.find?_eq_none] at h1 h2 hres
          refine ⟨?_, ?_, hres r hmem⟩
          · intro hc; exact h1 r hmem (by simp [hc])
          · intro hc; exact h2 r hmem (by simp [hc])
    · intro hall
      have h1 : (localRecipes ++ cloudRecipes).find? (fun r => r.id == q) = none := by
        rw [List.find?_eq_none]
        intro x hx
        simp [(hall x hx).1]
      have h2 : (localRecipes ++ cloudRecipes).find?
          (fun r => pyLower r.name == pyLower q) = none := by
        rw [List.find?_eq_none]
        intro x hx
        simp [(hall x hx).2.1]
      have h3 : (localRecipes ++ cloudRecipes).find?
          (fun r => pyIn (pyLower q) (pyLower r.name)) = none := by
        rw [List.find?_eq_none]
        intro x hx
        exact (hall x hx).2.2
      simp only [getRecipe, h1, h2, h3]

/-- Witness for C10: with one recipe named `"X"` and another whose id is
`"X"`, looking up `"X"` returns the id match. -/
theorem getRecipe_priority_witness :
    ∃ s, getRecipe [{ id := "1", name := "X", folder := "/" },
        { id := "X", name := "Y", folder := "/" }] [] "X" = some s
      ∧ s.id = "X" :=
  (getRecipe_priority [{ id := "1", name := "X", folder := "/" },
      { id := "X", name := "Y", folder := "/" }] [] "X").1
    { id := "X", name := "Y", folder := "/" } (by decide) (by decide)

/-! ## The parsed document tree and the element-to-record mapper -/

/-- A parsed XML element: tag, text content (empty models Python `None`)
and ordered child elements.  This is the shape of the tree the recovering
document parser produces. -/
inductive Elem where
  | node (tag : String) (text : String) (children : List Elem)
  deriving Repr

def Elem.tag : Elem → String
  | .node t _ _ => t

def Elem.text : Elem → String
  | .node _ tx _ => tx

def Elem.children : Elem → List Elem
  | .node _ _ c => c

/-- `element.findall(tag)`: the direct children carrying the tag. -/
def Elem.findall (e : Elem) (t : String) : List Elem :=
  e.children.filter (fun c => c.tag == t)

/-- `element.find(tag)`: the first direct child carrying the tag. -/
def Elem.findChild (e : Elem) (t : String) : Option Elem :=
  e.children.find? (fun c => c.tag == t)

/-- `element.findtext(tag, default)`: text of the first matching direct
child, or the default. -/
def Elem.findtextD (e : Elem) (t dflt : String) : String :=
  match e.findChild t with
  | some c => c.text
  | none => dflt

mutual
/-- `root.iter(tag)`: the element itself and every descendant with the tag,
in document order, as lxml iteration yields them. -/
def iterTag (e : Elem) (t : String) : List Elem :=
  match e with
  | .node tag tx children =>
    (if tag = t then [Elem.node tag tx children] else []) ++ iterTagList children t

def iterTagList (l : List Elem) (t : String) : List Elem :=
  match l with
  | [] => []
  | c :: rest => iterTag c t ++ iterTagList rest t
end

theorem Elem.sizeOf_lt_of_mem_children {e c : Elem} (h : c ∈ e.children) :
    sizeOf c < sizeOf e := by
  cases e with
  | node t tx cc =>
    simp only [Elem.children] at h
    have := List.sizeOf_lt_of_mem h
    simp only [Elem.node.sizeOf_spec]
    omega

theorem Elem.sizeOf_lt_of_mem_findall {e x : Elem} {t : String}
    (h : x ∈ e.findall t) : sizeOf x < sizeOf e :=
  Elem.sizeOf_lt_of_mem_children (List.mem_of_mem_filter h)

theorem Elem.sizeOf_lt_of_findChild {e x : Elem} {t : String}
    (h : e.findChild t = some x) : sizeOf x < sizeOf e :=
  Elem.sizeOf_lt_of_mem_children (List.mem_of_find?_eq_some h)

/-- Replace every non-overlapping occurrence of `pat` left to right, as
Python `str.replace`.  The fuel argument (the length of the scanned list)
keeps the recursion structural. -/
def replaceAllAux (fuel : Nat) (s pat sub : List Char) : List Char :=
  match fuel with
  | 0 => s
  | fuel + 1 =>
    match s with
    | [] => []
    | c :: t =>
      if pat.isPrefixOf s then sub ++ replaceAllAux fuel (s.drop pat.length) pat sub
      else c :: replaceAllAux fuel t pat sub

/-- Python `s.replace(pat, sub)` for a nonempty pattern. -/
def replaceAll (s pat sub : String) : String :=
  if pat = "" then s else ⟨replaceAllAux s.data.length s.data pat.data sub.data⟩

/-- The single-quote character, by code point. -/
def squote : Char := Char.ofNat 39

/-- Model of the standard-library `html.unescape` (external to the
repository) restricted to the five XML-predefined entities; the files the
claims exercise contain no other named references at this stage, since
`_parse_xml_file` has already replaced the known named entities and all
numeric references before parsing. -/
def htmlUnescape (s : String) : String :=
  replaceAll (replaceAll (replaceAll (replaceAll (replaceAll s
    "&lt;" "<") "&gt;" ">") "&quot;" "\"") "&#39;" (String.singleton squote))
    "&amp;" "&"

/-- A record value: a normalized scalar for a leaf element, a nested record
for an element with children. -/
inductive RVal where
  | val (v : PyVal)
  | dict (r : List (String × RVal))
  deriving Repr

/-- The record type produced by `_element_to_dict`. -/
abbrev Record := List (String × RVal)

/-- Python dict assignment `d[k] = v`: overwrite in place if the key exists,
else append, preserving insertion order. -/
def upsert (l : List (String × β)) (k : String) (v : β) : List (String × β) :=
  if l.any (fun p => p.1 == k) then
    l.map (fun p => if p.1 == k then (k, v) else p)
  else l ++ [(k, v)]

/-- Build a Python dict from key-value pairs in iteration order, later
assignments overwriting earlier ones in place. -/
def dictOf (pairs : List (String × RVal)) : Record :=
  pairs.foldl (fun acc p => upsert acc p.1 p.2) []

mutual
/-- The key-value pair one child element contributes to
`_element_to_dict`: lower-cased tag, and either the normalized decoded text
(leaf) or the recursively built nested record. -/
def elemPair (e : Elem) : String × RVal :=
  match e with
  | .node ct cx cc =>
    (pyLower ct,
      match cc with
      | [] => RVal.val (convertValue (htmlUnescape cx))
      | _ :: _ => RVal.dict (dictOf (rawPairs cc)))

def rawPairs (l : List Elem) : List (String × RVal) :=
  match l with
  | [] => []
  | c :: rest => elemPair c :: rawPairs rest
end

/-- Embedding of `BeerSmithParser._element_to_dict` (parser.py:145-160). -/
def elementToDict (e : Elem) : Record :=
  dictOf (rawPairs e.children)

/-- All items the catalog extractor visits: direct `itemTag` children of
every `Data` container anywhere in the document. -/
def collectItems (root : Elem) (itemTag : String) : List Elem :=
  (iterTag root "Data").flatMap (fun d => d.findall itemTag)

/-- Embedding of `BeerSmithParser._parse_items` (parser.py:183-200): every
`Data` container is scanned for direct `itemTag` children; each is mapped to
a record and validated; a validation failure (the `except` branch) skips
that one item.  The schema validator is a parameter, since the pydantic
models live in the absent `models.py`. -/
def parseItems (validate : Record → Option α) (root : Elem) (itemTag : String) :
    List α :=
  (iterTag root "Data").flatMap
    (fun d => (d.findall itemTag).filterMap (fun it => validate (elementToDict it)))

/-- C8: catalog extraction processes items independently — the result is
exactly the per-item validation of every collected item, so an item failing
validation is dropped while every other valid item in the same file still
appears; no failure aborts the others. -/
theorem parseItems_independent (validate : Record → Option α) (root : Elem)
    (itemTag : String) :
    parseItems validate root itemTag
      = (collectItems root itemTag).filterMap (fun it => validate (elementToDict it))
    ∧ (∀ it x, it ∈ collectItems root itemTag →
        validate (elementToDict it) = some x →
        x ∈ parseItems validate root itemTag) := by
  have heq : parseItems validate root itemTag
      = (collectItems root itemTag).filterMap
          (fun it => validate (elementToDict it)) := by
    unfold parseItems collectItems
    induction iterTag root "Data" with
    | nil => rfl
    | cons d ds ih => simp [List.flatMap_cons, List.filterMap_append, ih]
  refine ⟨heq, ?_⟩
  intro it x hmem hval
  rw [heq, List.mem_filterMap]
  exact ⟨it, hmem, hval⟩

/-- A concrete validator for the C8 witness: the schema requires a string
field `name`. -/
def requireName (r : Record) : Option String :=
  match List.lookup "name" r with
  | some (.val (.str s)) => some s
  | _ => none

/-- The concrete document for the C8 witness: one container holding a valid
item, an invalid item (missing the required field) and another valid item. -/
def c8root : Elem :=
  .node "Root" ""
    [.node "Data" ""
      [.node "Itm" "" [.node "Name" "a" []],
       .node "Itm" "" [.node "Other" "zz" []],
       .node "Itm" "" [.node "Name" "b" []]]]

/-- Witness for C8: the valid item named `"b"`, sitting after an invalid
item in the same container, still appears in the extraction result. -/
theorem parseItems_independent_witness :
    "b" ∈ parseItems requireName c8root "Itm" :=
  (parseItems_independent requireName c8root "Itm").2
    (.node "Itm" "" [.node "Name" "b" []]) "b"
    (.tail _ (.tail _ (.head _))) (by decide)

/-! ## The recursive recipe tree walker -/

/-- Modelled from the spec: validation of a recipe record against the
Recipe schema of the absent `models.py` (spec section 4.5).  The schema
reads the name through the `f_r_name` alias, the identifier through
`_permid_` and the folder through `f_r_folder_name` (the tags the writer
emits at parser.py:773-780); a record without a name fails validation, the
identifier and folder default to empty. -/
def parseRecipeElem (e : Elem) : Option Recipe :=
  let r := elementToDict e
  match List.lookup "f_r_name" r with
  | some (.val (.str n)) =>
    some
      { id :=
          match List.lookup "_permid_" r with
          | some (.val (.int k)) => toString k
          | some (.val (.str s)) => s
          | _ => "",
        name := n,
        folder :=
          match List.lookup "f_r_folder_name" r with
          | some (.val (.str f)) => f
          | _ => "" }
  | _ => none

/-- The folder-inheritance rule of `_find_recipes_recursive`
(parser.py:643-644, 654-655): a parsed recipe keeps its own folder unless
that folder is absent (empty, which is falsy in Python) or the root `"/"`. -/
def assignFolder (fp : String) (r : Recipe) : Recipe :=
  if r.folder = "" || r.folder = "/" then { r with folder := fp } else r

/-- `findtext` over a raw child list: text of the first child with the tag,
or the default. -/
def findtextList (l : List Elem) (t dflt : String) : String :=
  match l.find? (fun c => c.tag == t) with
  | some c => c.text
  | none => dflt

/-- The direct `Recipe` children pass of the walker (parser.py:640-645). -/
def recipePass (fp : String) (children : List Elem) : List Recipe :=
  (children.filter (fun c => c.tag == "Recipe")).filterMap
    (fun re => (parseRecipeElem re).map (assignFolder fp))

/-- The `Cloud` children pass of the walker (parser.py:648-656): each cloud
element wraps its recipe data in an `F_C_RECIPE` child. -/
def cloudPass (fp : String) (children : List Elem) : List Recipe :=
  (children.filter (fun c => c.tag == "Cloud")).filterMap
    (fun ce =>
      match ce.findChild "F_C_RECIPE" with
      | some rd => (parseRecipeElem rd).map (assignFolder fp)
      | none => none)

mutual
/-- Embedding of `BeerSmithParser._find_recipes_recursive`
(parser.py:626-662) on the child list of the current element: folder
(`Table`) containers first, then direct recipes, then cloud recipes, then
recursion into plain `Data` containers under the same folder path. -/
def walkChildren (fp : String) (children : List Elem) : List Recipe :=
  walkTables fp children ++ recipePass fp children ++ cloudPass fp children
    ++ walkDatas fp children
termination_by (sizeOf children, 1)
decreasing_by
  all_goals exact Prod.Lex.right _ (by omega)

/-- The `Table` pass: for each folder container, extend the path by its
declared name and walk its data container, if any. -/
def walkTables (fp : String) (l : List Elem) : List Recipe :=
  match l with
  | [] => []
  | .node tag _ cc :: rest =>
    (if tag = "Table" then
      walkTableData (fp ++ findtextList cc "Name" "" ++ "/") cc
    else []) ++ walkTables fp rest
termination_by (sizeOf l, 0)
decreasing_by
  all_goals simp_wf
  all_goals exact Prod.Lex.left _ _ (by omega)

/-- Walk the first `Data` child of a folder container (the `table.find`
call of parser.py:633); a folder with no data container contributes
nothing. -/
def walkTableData (fp : String) (l : List Elem) : List Recipe :=
  match l with
  | [] => []
  | .node tag _ cc :: rest =>
    if tag = "Data" then walkChildren fp cc
    else walkTableData fp rest
termination_by (sizeOf l, 0)
decreasing_by
  all_goals simp_wf
  all_goals exact Prod.Lex.left _ _ (by omega)

/-- The `Data` pass: recurse into every plain data container with the same
folder path (parser.py:659-660). -/
def walkDatas (fp : String) (l : List Elem) : List Recipe :=
  match l with
  | [] => []
  | .node tag _ cc :: rest =>
    (if tag = "Data" then walkChildren fp cc else []) ++ walkDatas fp rest
termination_by (sizeOf l, 0)
decreasing_by
  all_goals simp_wf
  all_goals exact Prod.Lex.left _ _ (by omega)
end

/-- Embedding of `_find_recipes_recursive` on an element: the source walks
the direct children of the given container element. -/
def findRecipesRecursive (e : Elem) (fp : String) : List Recipe :=
  walkChildren fp e.children

/-- C6: a recipe element reached through nested folder containers named
`"A"` then `"B"` from root path `"/"` inherits folder path `"/A/B/"` when
the parsed recipe declares no non-root folder, and keeps its own declared
folder otherwise. -/
theorem walker_folder_inheritance (tx : String) (cc : List Elem) (r : Recipe)
    (hp : parseRecipeElem (.node "Recipe" tx cc) = some r) :
    ((r.folder = "" ∨ r.folder = "/") →
      findRecipesRecursive
        (.node "Selections" ""
          [.node "Table" ""
            [.node "Name" "A" [],
             .node "Data" ""
              [.node "Table" ""
                [.node "Name" "B" [],
                 .node "Data" "" [.node "Recipe" tx cc]]]]]) "/"
        = [{ r with folder := "/A/B/" }])
    ∧ (r.folder ≠ "" → r.folder ≠ "/" →
      findRecipesRecursive
        (.node "Selections" ""
          [.node "Table" ""
            [.node "Name" "A" [],
             .node "Data" ""
              [.node "Table" ""
                [.node "Name" "B" [],
                 .node "Data" "" [.node "Recipe" tx cc]]]]]) "/"
        = [r]) := by
  have hbase :
      findRecipesRecursive
        (.node "Selections" ""
          [.node "Table" ""
            [.node "Name" "A" [],
             .node "Data" ""
              [.node "Table" ""
                [.node "Name" "B" [],
                 .node "Data" "" [.node "Recipe" tx cc]]]]]) "/"
        = [assignFolder "/A/B/" r] := by
    simp [findRecipesRecursive, walkChildren, walkTables, walkTableData, walkDatas,
      recipePass, cloudPass, findtextList, Elem.tag, Elem.text, Elem.children,
      Elem.findChild, hp]
  constructor
  · intro h
    rw [hbase]
    rcases h with h | h <;> simp [assignFolder, h]
  · intro h1 h2
    rw [hbase]
    simp [assignFolder, h1, h2]

/-- Witness for C6: a concrete recipe element with name `"Pale"` and no
declared folder, nested under folders `A` and `B`, comes out with folder
`"/A/B/"`. -/
theorem walker_folder_inheritance_witness :
    findRecipesRecursive
      (.node "Selections" ""
        [.node "Table" ""
          [.node "Name" "A" [],
           .node "Data" ""
            [.node "Table" ""
              [.node "Name" "B" [],
               .node "Data" ""
                [.node "Recipe" "" [.node "F_R_NAME" "Pale" []]]]]]]) "/"
      = [{ id := "", name := "Pale", folder := "/A/B/" }] :=
  (walker_folder_inheritance "" [.node "F_R_NAME" "Pale" []]
      { id := "", name := "Pale", folder := "" } (by decide)).1 (Or.inl rfl)

/-! ## The tolerant document reader and its mtime cache -/

/-- What the model filesystem records about one file: its modification
timestamp and its text content. -/
structure FileInfo where
  mtime : Nat
  content : String

/-- The filesystem as the reader observes it: path to file info. -/
abbrev FS := List (String × FileInfo)

/-- The parser-instance cache (parser.py:91): filename to observed mtime
and parsed tree. -/
abbrev Cache := List (String × (Nat × Elem))

/-- First-match association lookup (Python dict read). -/
def alookup (k : String) : List (String × β) → Option β
  | [] => none
  | (a, b) :: t => if a = k then some b else alookup k t

theorem alookup_upsert_any (l : List (String × β)) (k : String) (v : β)
    (h : l.any (fun p => p.1 == k) = true) :
    alookup k (l.map (fun p => if p.1 == k then (k, v) else p)) = some v := by
  induction l with
  | nil => cases h
  | cons a t ih =>
    simp only [List.map_cons]
    by_cases ha : (a.1 == k) = true
    · rw [if_pos ha]
      show alookup k ((k, v) :: _) = some v
      simp [alookup]
    · rw [if_neg ha]
      have hk : a.1 ≠ k := by simpa using ha
      show alookup k (a :: _) = some v
      rw [show alookup k (a :: t.map fun p => if p.1 == k then (k, v) else p)
          = if a.1 = k then some a.2 else alookup k (t.map fun p => if p.1 == k then (k, v) else p)
          from rfl]
      rw [if_neg hk]
      apply ih
      simpa [ha] using h

theorem alookup_upsert_none (l : List (String × β)) (k : String) (v : β)
    (h : l.any (fun p => p.1 == k) = false) :
    alookup k (l ++ [(k, v)]) = some v := by
  induction l with
  | nil => simp [alookup]
  | cons a t ih =>
    simp only [List.any_cons, Bool.or_eq_false_iff] at h
    have hk : a.1 ≠ k := by simpa using h.1
    simp only [List.cons_append, alookup]
    rw [if_neg hk]
    exact ih h.2

/-- Updating a key always makes it readable with the written value. -/
theorem alookup_upsert (l : List (String × β)) (k : String) (v : β) :
    alookup k (upsert l k v) = some v := by
  unfold upsert
  by_cases h : l.any (fun p => p.1 == k) = true
  · rw [if_pos h]; exact alookup_upsert_any l k v h
  · rw [if_neg h]
    exact alookup_upsert_none l k v (Bool.eq_false_iff.mpr h)

/-- The cache-hit test of `_parse_xml_file` (parser.py:118-121): a cached
entry is served only when its recorded mtime equals the current one. -/
def cacheHit (cache : Cache) (fn : String) (mt : Nat) : Option Elem :=
  match alookup fn cache with
  | some (m, tree) => if m = mt then some tree else none
  | none => none

/-- Embedding of `BeerSmithParser._parse_xml_file` (parser.py:110-143).  The
inner pipeline — reading the bytes, replacing the known HTML entities and the
numeric character references, and the lxml recovery parse (lines 123-138,
the last being an external library) — is abstracted as `parseDoc` applied to
the file content.  The returned flag records whether the call re-read and
re-parsed the file (`true`) or was served from the cache or failed early
(`false`). -/
def parseXmlFile (parseDoc : String → Option Elem) (fs : FS) (cache : Cache)
    (fn : String) : Option Elem × Cache × Bool :=
  match alookup fn fs with
  | none => (none, cache, false)
  | some fi =>
    match cacheHit cache fn fi.mtime with
    | some tree => (some tree, cache, false)
    | none =>
      match parseDoc fi.content with
      | some root => (some root, upsert cache fn (fi.mtime, root), true)
      | none => (none, cache, false)

/-- C3: after a successful parse the reader caches the tree under the
filename and observed mtime; a second read with the same filesystem state
returns the identical cached tree without re-parsing and leaves the cache
unchanged; a read after the mtime changed re-parses the file and replaces
the cache entry. -/
theorem parseXmlFile_cache (parseDoc : String → Option Elem) (fs : FS)
    (cache : Cache) (fn : String) (fi : FileInfo) (tree : Elem) (cache1 : Cache)
    (hfs : alookup fn fs = some fi)
    (h1 : parseXmlFile parseDoc fs cache fn = (some tree, cache1, true)) :
    alookup fn cache1 = some (fi.mtime, tree)
    ∧ parseXmlFile parseDoc fs cache1 fn = (some tree, cache1, false)
    ∧ (∀ (fs2 : FS) (fi2 : FileInfo) (t2 : Elem),
        alookup fn fs2 = some fi2 → fi2.mtime ≠ fi.mtime →
        parseDoc fi2.content = some t2 →
        parseXmlFile parseDoc fs2 cache1 fn
          = (some t2, upsert cache1 fn (fi2.mtime, t2), true)
        ∧ alookup fn (upsert cache1 fn (fi2.mtime, t2))
          = some (fi2.mtime, t2)) := by
  have hmain : parseDoc fi.content = some tree
      ∧ cache1 = upsert cache fn (fi.mtime, tree) := by
    unfold parseXmlFile at h1
    rw [hfs] at h1
    replace h1 :
        (match cacheHit cache fn fi.mtime with
          | some tree => ((some tree : Option Elem), cache, false)
          | none =>
            match parseDoc fi.content with
            | some root => (some root, upsert cache fn (fi.mtime, root), true)
            | none => (none, cache, false))
          = ((some tree : Option Elem), cache1, true) := h1
    cases hh : cacheHit cache fn fi.mtime with
    | some t0 =>
      rw [hh] at h1
      rw [Prod.mk.injEq, Prod.mk.injEq] at h1
      cases h1.2.2
    | none =>
      rw [hh] at h1
      cases hp : parseDoc fi.content with
      | none =>
        rw [hp] at h1
        rw [Prod.mk.injEq, Prod.mk.injEq] at h1
        cases h1.1
      | some root =>
        rw [hp] at h1
        rw [Prod.mk.injEq, Prod.mk.injEq] at h1
        obtain ⟨h1a, h1b, -⟩ := h1
        obtain rfl : root = tree := by simpa using h1a
        exact ⟨rfl, h1b.symm⟩
  obtain ⟨hparse, hcache1⟩ := hmain
  have hlook : alookup fn cache1 = some (fi.mtime, tree) := by
    rw [hcache1]; exact alookup_upsert ..
  have hhit1 : cacheHit cache1 fn fi.mtime = some tree := by
    unfold cacheHit
    rw [hlook]
    show (if fi.mtime = fi.mtime then some tree else none) = some tree
    rw [if_pos rfl]
  refine ⟨hlook, ?_, ?_⟩
  · unfold parseXmlFile
    rw [hfs]
    show (match cacheHit cache1 fn fi.mtime with
      | some tree => ((some tree : Option Elem), cache1, false)
      | none =>
        match parseDoc fi.content with
        | some root => (some root, upsert cache1 fn (fi.mtime, root), true)
        | none => (none, cache1, false)) = (some tree, cache1, false)
    rw [hhit1]
  · intro fs2 fi2 t2 hfs2 hne hp2
    have hmiss : cacheHit cache1 fn fi2.mtime = none := by
      unfold cacheHit
      rw [hlook]
      show (if fi.mtime = fi2.mtime then some tree else none) = none
      rw [if_neg (fun hc => hne hc.symm)]
    constructor
    · unfold parseXmlFile
      rw [hfs2]
      show (match cacheHit cache1 fn fi2.mtime with
        | some tree => ((some tree : Option Elem), cache1, false)
        | none =>
          match parseDoc fi2.content with
          | some root => (some root, upsert cache1 fn (fi2.mtime, root), true)
          | none => (none, cache1, false))
        = (some t2, upsert cache1 fn (fi2.mtime, t2), true)
      rw [hmiss, hp2]
    · exact alookup_upsert ..

/-- The concrete parse function for the C3 witness. -/
def wParse : String → Option Elem := fun s => some (.node s "" [])

/-- The concrete filesystem for the C3 witness: one file with mtime 1. -/
def wFs : FS := [("Hops.bsmx", { mtime := 1, content := "abc" })]

/-- The tree the witness parse produces. -/
def wTree : Elem := .node "abc" "" []

/-- The cache state after the first witness read. -/
def wCache1 : Cache := [("Hops.bsmx", (1, wTree))]

/-- Witness for C3: after a first read parses and fills the cache, a second
read with the file untouched is served from the cache without re-parsing. -/
theorem parseXmlFile_cache_witness :
    parseXmlFile wParse wFs wCache1 "Hops.bsmx" = (some wTree, wCache1, false) :=
  (parseXmlFile_cache wParse wFs [] "Hops.bsmx"
    { mtime := 1, content := "abc" } wTree wCache1 rfl rfl).2.1

/-! ## The surgical field updater and its value coercion -/

/-- The decimal digit character for a value below ten. -/
def digitChar (d : Nat) : Char := Char.ofNat (48 + d)

/-- Decimal digits of a natural number, most significant first (fuel keeps
the recursion structural; `natToStr` supplies enough). -/
def natDigitsAux : Nat → Nat → List Char
  | 0, _ => []
  | fuel + 1, n => if n < 10 then [digitChar n] else natDigitsAux fuel (n / 10) ++ [digitChar (n % 10)]

/-- Embedding of the Python decimal rendering `str(n)` for naturals. -/
def natToStr (n : Nat) : String := ⟨natDigitsAux (n + 1) n⟩

/-- Embedding of Python `str(n)` for integers. -/
def intToStr (n : Int) : String :=
  (if n < 0 then "-" else "") ++ natToStr n.natAbs

/-- ASCII upper-casing, embedding Python `str.upper()` on ASCII aliases. -/
def pyUpper (s : String) : String := ⟨s.data.map Char.toUpper⟩

/-- Embedding of `html.escape` (Python standard library, quote mode on):
ampersand first, then angle brackets, then both quote characters. -/
def htmlEscapePy (s : String) : String :=
  replaceAll (replaceAll (replaceAll (replaceAll (replaceAll s
    "&" "&amp;") "<" "&lt;") ">" "&gt;") "\"" "&quot;")
    (String.singleton squote) "&#x27;"

/-- The numeric-character-reference pass of `_xml_escape`
(parser.py:98-104): every character above code point 127 becomes `&#N;`. -/
def toNcr (s : String) : String :=
  ⟨s.data.flatMap (fun c =>
    if c.toNat > 127 then ("&#" ++ natToStr c.toNat ++ ";").data else [c])⟩

/-- Embedding of `BeerSmithParser._xml_escape` (parser.py:93-104). -/
def xmlEscape (s : String) : String := toNcr (htmlEscapePy s)

/-- The seven fractional digits of `m` (which the caller reduces modulo
`10 ^ 7`), zero-padded, most significant first. -/
def frac7 (m : Nat) : List Char :=
  [digitChar (m / 1000000 % 10), digitChar (m / 100000 % 10),
   digitChar (m / 10000 % 10), digitChar (m / 1000 % 10),
   digitChar (m / 100 % 10), digitChar (m / 10 % 10), digitChar (m % 10)]

/-- Embedding of the Python fixed-format rendering `f"{x:.7f}"` on the exact
rational value: sign, integer part, point, exactly seven fractional digits.
(Python rounds the stored double half-to-even; on the exact value the two
renderings agree except on ties of the eighth decimal, which no claim
exercises.) -/
def formatFixed7 (q : ℚ) : String :=
  let n : Int := round (q * 10000000)
  let a := n.natAbs
  (if n < 0 then "-" else "") ++ natToStr (a / 10000000) ++ "." ++ ⟨frac7 (a % 10000000)⟩

/-- A value handed to the field updater, as `_update_xml_fields`
distinguishes them: strings, booleans, floats; anything else (integers)
falls through to plain decimal rendering. -/
inductive UpdVal where
  | vstr (s : String)
  | vbool (b : Bool)
  | vfloat (q : ℚ)
  | vint (n : Int)
  deriving Repr

/-- The value coercion of `_update_xml_fields` (parser.py:1176-1182):
strings are entity-escaped with non-ASCII forced to numeric references,
booleans become 1 or 0, floats the 7-fractional-digit form. -/
def coerceValue : UpdVal → String
  | .vstr s => xmlEscape s
  | .vbool b => if b then "1" else "0"
  | .vfloat q => formatFixed7 q
  | .vint n => intToStr n

/-- Modelled from the spec: the alias table of the entity schema lives in
the absent `models.py`; `_update_xml_fields` upper-cases the declared alias
and falls back to `F_` + upper-cased field name (parser.py:1162-1174). -/
def resolveTag (aliases : List (String × String)) (fname : String) : String :=
  match alookup fname aliases with
  | some a => pyUpper a
  | none => "F_" ++ pyUpper fname

/-- The opening tag text for a resolved field. -/
def openTagOf (aliases : List (String × String)) (fname : String) : List Char :=
  ("<" ++ resolveTag aliases fname ++ ">").data

/-- The closing tag text for a resolved field. -/
def closeTagOf (aliases : List (String × String)) (fname : String) : List Char :=
  ("</" ++ resolveTag aliases fname ++ ">").data

/-- Scan for the first occurrence of `close` with no intervening newline
(the lazy `.*?` of the non-DOTALL pattern cannot cross a line): returns the
consumed text and the rest after the closing tag. -/
def scanInline (close s : List Char) : Option (List Char × List Char) :=
  if close.isPrefixOf s then some ([], s.drop close.length)
  else
    match s with
    | [] => none
    | c :: t =>
      if c = '\n' then none
      else (scanInline close t).map (fun p => (c :: p.1, p.2))

/-- Leftmost match of the pattern `<TAG>.*?</TAG>` (no DOTALL), as
`re.sub(..., count=1)` locates it: the first position where the opening tag
is followed on the same line by the closing tag.  Returns the text before
the match, the lazy inner text, and the text after the closing tag. -/
def findTagSpan (openT closeT s : List Char) :
    Option (List Char × List Char × List Char) :=
  match s with
  | [] => none
  | c :: t =>
    if openT.isPrefixOf s then
      match scanInline closeT (s.drop openT.length) with
      | some (inner, rest) => some ([], inner, rest)
      | none => (findTagSpan openT closeT t).map (fun p => (c :: p.1, p.2.1, p.2.2))
    else (findTagSpan openT closeT t).map (fun p => (c :: p.1, p.2.1, p.2.2))

/-- Octal digit test for replacement-template escapes. -/
def isOctal (c : Char) : Bool := decide ('0' ≤ c ∧ c ≤ '7')

/-- Value of an octal digit. -/
def octVal (c : Char) : Nat := c.toNat - 48

/-- The single-character replacement escapes of the `re` module
(`\a \b \f \n \r \t \v \\`). -/
def simpleEscape (e : Char) : Option Char :=
  if e = 'n' then some (Char.ofNat 10)
  else if e = 'r' then some (Char.ofNat 13)
  else if e = 't' then some (Char.ofNat 9)
  else if e = 'a' then some (Char.ofNat 7)
  else if e = 'b' then some (Char.ofNat 8)
  else if e = 'f' then some (Char.ofNat 12)
  else if e = 'v' then some (Char.ofNat 11)
  else if e = '\\' then some '\\'
  else none

/-- `\g<...>` group references in a replacement template, for a pattern
with no capture groups: only group 0 (the whole match) is valid.  Returns
the inserted text and the remaining template; `none` is `re.error`. -/
def groupEscape (matched rest2 : List Char) : Option (List Char × List Char) :=
  match rest2 with
  | '<' :: r3 =>
    match r3.dropWhile (fun ch => ¬ ch = '>') with
    | '>' :: r4 =>
      let nm := r3.takeWhile (fun ch => ¬ ch = '>')
      if nm ≠ [] ∧ nm.all Char.isDigit then
        if nm.all (fun ch => ch = '0') then some (matched, r4) else none
      else none
    | _ => none
  | _ => none

/-- `\0` octal escapes: up to two further octal digits. -/
def octEscape0 (rest2 : List Char) : List Char × List Char :=
  match rest2 with
  | d1 :: r3 =>
    if isOctal d1 then
      match r3 with
      | d2 :: r4 =>
        if isOctal d2 then ([Char.ofNat ((octVal d1 * 8 + octVal d2) % 256)], r4)
        else ([Char.ofNat (octVal d1)], r3)
      | [] => ([Char.ofNat (octVal d1)], [])
    else ([Char.ofNat 0], rest2)
  | [] => ([Char.ofNat 0], [])

/-- `\1`-`\9` in a replacement template over a groupless pattern: a
three-octal-digit run is an octal escape, anything else is an invalid
group reference (`re.error`). -/
def digitEscape (e : Char) (rest2 : List Char) : Option (List Char × List Char) :=
  match rest2 with
  | d2 :: d3 :: r4 =>
    if isOctal e ∧ isOctal d2 ∧ isOctal d3 then
      some ([Char.ofNat ((octVal e * 64 + octVal d2 * 8 + octVal d3) % 256)], r4)
    else none
  | _ => none

/-- One backslash escape of the replacement template: the text it inserts
and the remaining template.  `none` models the raised `re.error` (bad
escape before an ASCII letter, invalid group reference); a backslash
before a non-letter non-digit is kept literally. -/
def escapeStep (matched : List Char) (e : Char) (rest2 : List Char) :
    Option (List Char × List Char) :=
  match simpleEscape e with
  | some ch => some ([ch], rest2)
  | none =>
    if e = 'g' then groupEscape matched rest2
    else if e = '0' then some (octEscape0 rest2)
    else if e.isDigit then digitEscape e rest2
    else if e.isAlpha then none
    else some (['\\', e], rest2)

/-- The replacement-template processing of Python `re.sub` (the
`parse_template` pass of the `re` module), specialised to a pattern with
no capture groups, as the tag-span pattern of parser.py:1186 has none.  A
trailing backslash is an error; `none` models the raised `re.error`.  The
fuel (template length) keeps the recursion structural. -/
def applyTemplateAux (matched : List Char) : Nat → List Char → Option (List Char)
  | 0, _ => none
  | _ + 1, [] => some []
  | fuel + 1, c :: rest =>
    if c = '\\' then
      match rest with
      | [] => none
      | e :: rest2 =>
        match escapeStep matched e rest2 with
        | some (ins, rem) => (applyTemplateAux matched fuel rem).map (fun l => ins ++ l)
        | none => none
    else (applyTemplateAux matched fuel rest).map (fun l => c :: l)

/-- Template processing of a whole replacement string. -/
def applyTemplate (matched template : List Char) : Option (List Char) :=
  applyTemplateAux matched (template.length + 1) template

/-- `re.sub(pattern, replacement, s, count=1)` for the tag-span pattern:
locate the first matched span and substitute the template-processed
replacement, or return the text unchanged when the pattern does not match;
`none` is the raised `re.error` on a bad replacement escape. -/
def subTagFirst (openT closeT payload s : List Char) : Option (List Char) :=
  match findTagSpan openT closeT s with
  | some (pre, inner, post) =>
    (applyTemplate (openT ++ inner ++ closeT) (openT ++ payload ++ closeT)).map
      (fun r => pre ++ r ++ post)
  | none => some s

/-- Embedding of `BeerSmithParser._update_xml_fields` (parser.py:1159-1190):
for each field in order, resolve its tag, coerce its value and substitute
the first inline occurrence of the tag span through `re.sub`, whose
replacement-template escape processing applies to the coerced value; a bad
escape aborts the whole call with `re.error` (`none`). -/
def updateXmlFields (aliases : List (String × String)) (xml : String) :
    List (String × UpdVal) → Option String
  | [] => some xml
  | u :: rest =>
    match subTagFirst (openTagOf aliases u.1) (closeTagOf aliases u.1)
        (coerceValue u.2).data xml.data with
    | some l => updateXmlFields aliases ⟨l⟩ rest
    | none => none

theorem isPrefixOf_append_self (l r : List Char) : l.isPrefixOf (l ++ r) = true := by
  induction l with
  | nil => cases r <;> rfl
  | cons a t ih => simp [List.isPrefixOf, ih]

theorem isPrefixOf_decomp {l s : List Char} (h : l.isPrefixOf s = true) :
    s = l ++ s.drop l.length := by
  induction l generalizing s with
  | nil => simp
  | cons a t ih =>
    cases s with
    | nil => cases h
    | cons b s2 =>
      simp only [List.isPrefixOf, Bool.and_eq_true, beq_iff_eq] at h
      obtain ⟨rfl, h2⟩ := h
      simp only [List.cons_append, List.length_cons, List.drop_succ_cons, List.cons.injEq,
        true_and]
      exact ih h2

theorem scanInline_decomp {close s inner rest : List Char}
    (h : scanInline close s = some (inner, rest)) :
    s = inner ++ (close ++ rest) ∧ '\n' ∉ inner := by
  induction s generalizing inner rest with
  | nil =>
    unfold scanInline at h
    by_cases hp : close.isPrefixOf ([] : List Char) = true
    · rw [if_pos hp] at h
      simp only [Option.some.injEq, Prod.mk.injEq] at h
      obtain ⟨h1, h2⟩ := h
      subst h1
      subst h2
      have hc : ([] : List Char) = close ++ List.drop close.length [] := isPrefixOf_decomp hp
      simp only [List.drop_nil] at hc ⊢
      exact ⟨by simp [← hc], by simp⟩
    · rw [if_neg hp] at h
      cases h
  | cons c0 t ih =>
    unfold scanInline at h
    by_cases hp : close.isPrefixOf (c0 :: t) = true
    · rw [if_pos hp] at h
      simp only [Option.some.injEq, Prod.mk.injEq] at h
      obtain ⟨h1, h2⟩ := h
      subst h1
      subst h2
      exact ⟨by simpa using isPrefixOf_decomp hp, by simp⟩
    · rw [if_neg hp] at h
      replace h :
          (if c0 = '\n' then none
           else (scanInline close t).map (fun p => (c0 :: p.1, p.2))) = some (inner, rest) := h
      by_cases hc : c0 = '\n'
      · rw [if_pos hc] at h; cases h
      · rw [if_neg hc] at h
        rcases hm : scanInline close t with _ | ⟨i0, r0⟩
        · rw [hm] at h; cases h
        · rw [hm] at h
          simp only [Option.map_some', Option.some.injEq, Prod.mk.injEq] at h
          obtain ⟨h1, h2⟩ := h
          subst h1
          subst h2
          obtain ⟨hd, hnl⟩ := ih hm
          refine ⟨by rw [List.cons_append, ← hd], ?_⟩
          intro hmem
          rcases List.mem_cons.1 hmem with hh | hh
          · exact hc hh.symm
          · exact hnl hh

theorem scanInline_isSome {close inner rest : List Char} (hnl : '\n' ∉ inner) :
    (scanInline close (inner ++ (close ++ rest))).isSome = true := by
  induction inner with
  | nil =>
    unfold scanInline
    rw [List.nil_append, if_pos (isPrefixOf_append_self close rest)]
    rfl
  | cons c i ih =>
    unfold scanInline
    by_cases hp : close.isPrefixOf (c :: i ++ (close ++ rest)) = true
    · rw [if_pos hp]; rfl
    · rw [if_neg hp]
      have hc : ¬ c = '\n' := fun hh => hnl (hh ▸ List.mem_cons_self c i)
      show (if c = '\n' then none
        else (scanInline close (i ++ (close ++ rest))).map
          (fun p => (c :: p.1, p.2))).isSome = true
      rw [if_neg hc]
      have hih := ih (fun hm => hnl (List.mem_cons_of_mem _ hm))
      rcases h2 : scanInline close (i ++ (close ++ rest)) with _ | p
      · rw [h2] at hih; cases hih
      · rfl
theorem findTagSpan_decomp {o c s pre inner post : List Char}
    (h : findTagSpan o c s = some (pre, inner, post)) :
    s = pre ++ (o ++ (inner ++ (c ++ post))) ∧ '\n' ∉ inner := by
  induction s generalizing pre inner post with
  | nil => unfold findTagSpan at h; cases h
  | cons c0 t ih =>
    unfold findTagSpan at h
    by_cases hp : o.isPrefixOf (c0 :: t) = true
    · rw [if_pos hp] at h
      rcases hs : scanInline c ((c0 :: t).drop o.length) with _ | ⟨i0, r0⟩
      · rw [hs] at h
        rcases hm : findTagSpan o c t with _ | ⟨p1, p2, p3⟩
        · rw [hm] at h; cases h
        · rw [hm] at h
          simp only [Option.map_some', Option.some.injEq, Prod.mk.injEq] at h
          obtain ⟨h1, h2, h3⟩ := h
          subst h1
          subst h2
          subst h3
          obtain ⟨hd, hnl⟩ := ih hm
          exact ⟨by rw [List.cons_append, ← hd], hnl⟩
      · rw [hs] at h
        simp only [Option.some.injEq, Prod.mk.injEq] at h
        obtain ⟨h1, h2, h3⟩ := h
        subst h1
        subst h2
        subst h3
        obtain ⟨hd, hnl⟩ := scanInline_decomp hs
        refine ⟨?_, hnl⟩
        rw [List.nil_append, ← hd]
        exact isPrefixOf_decomp hp
    · rw [if_neg hp] at h
      rcases hm : findTagSpan o c t with _ | ⟨p1, p2, p3⟩
      · rw [hm] at h; cases h
      · rw [hm] at h
        simp only [Option.map_some', Option.some.injEq, Prod.mk.injEq] at h
        obtain ⟨h1, h2, h3⟩ := h
        subst h1
        subst h2
        subst h3
        obtain ⟨hd, hnl⟩ := ih hm
        exact ⟨by rw [List.cons_append, ← hd], hnl⟩

theorem findTagSpan_first {o c s pre inner post : List Char}
    (h : findTagSpan o c s = some (pre, inner, post)) :
    ∀ pre2 inner2 post2, s = pre2 ++ (o ++ (inner2 ++ (c ++ post2))) →
      '\n' ∉ inner2 → pre.length ≤ pre2.length := by
  induction s generalizing pre inner post with
  | nil => unfold findTagSpan at h; cases h
  | cons c0 t ih =>
    intro pre2 inner2 post2 hdec hnl
    unfold findTagSpan at h
    by_cases hp : o.isPrefixOf (c0 :: t) = true
    · rw [if_pos hp] at h
      rcases hs : scanInline c ((c0 :: t).drop o.length) with _ | ⟨i0, r0⟩
      · rw [hs] at h
        rcases hm : findTagSpan o c t with _ | ⟨p1, p2, p3⟩
        · rw [hm] at h; cases h
        · rw [hm] at h
          simp only [Option.map_some', Option.some.injEq, Prod.mk.injEq] at h
          obtain ⟨h1, h2, h3⟩ := h
          subst h1
          subst h2
          subst h3
          cases pre2 with
          | nil =>
            exfalso
            rw [List.nil_append] at hdec
            have hdrop : (c0 :: t).drop o.length = inner2 ++ (c ++ post2) := by
              rw [hdec]
              exact List.drop_left o _
            have hsome := @scanInline_isSome c inner2 post2 hnl
            rw [← hdrop, hs] at hsome
            cases hsome
          | cons d pre3 =>
            rw [List.cons_append] at hdec
            have hh : c0 = d ∧ t = pre3 ++ (o ++ (inner2 ++ (c ++ post2))) := by
              injection hdec with hh1 hh2
              exact ⟨hh1, hh2⟩
            have := ih hm pre3 inner2 post2 hh.2 hnl
            simpa using Nat.succ_le_succ this
      · rw [hs] at h
        simp only [Option.some.injEq, Prod.mk.injEq] at h
        obtain ⟨h1, h2, h3⟩ := h
        subst h1
        exact Nat.zero_le _
    · rw [if_neg hp] at h
      rcases hm : findTagSpan o c t with _ | ⟨p1, p2, p3⟩
      · rw [hm] at h; cases h
      · rw [hm] at h
        simp only [Option.map_some', Option.some.injEq, Prod.mk.injEq] at h
        obtain ⟨h1, h2, h3⟩ := h
        subst h1
        subst h2
        subst h3
        cases pre2 with
        | nil =>
          exfalso
          rw [List.nil_append] at hdec
          have : o.isPrefixOf (c0 :: t) = true := by
            rw [hdec]
            exact isPrefixOf_append_self o _
          exact hp this
        | cons d pre3 =>
          rw [List.cons_append] at hdec
          have hh : c0 = d ∧ t = pre3 ++ (o ++ (inner2 ++ (c ++ post2))) := by
            injection hdec with hh1 hh2
            exact ⟨hh1, hh2⟩
          have := ih hm pre3 inner2 post2 hh.2 hnl
          simpa using Nat.succ_le_succ this
/-- ASCII test by code point. -/
def isAsciiChar (c : Char) : Bool := decide (c.toNat ≤ 127)

theorem digitChar_ascii (d : Nat) (h : d < 10) : (digitChar d).toNat ≤ 127 := by
  interval_cases d <;> decide

theorem digitChar_isDigit (d : Nat) (h : d < 10) : (digitChar d).isDigit = true := by
  interval_cases d <;> decide

theorem natDigitsAux_ascii (fuel : Nat) :
    ∀ n, (natDigitsAux fuel n).all isAsciiChar = true := by
  induction fuel with
  | zero => intro n; rfl
  | succ f ih =>
    intro n
    unfold natDigitsAux
    by_cases h : n < 10
    · rw [if_pos h]
      simp [isAsciiChar, digitChar_ascii n h]
    · rw [if_neg h]
      rw [List.all_append, ih (n / 10), Bool.true_and]
      simp [isAsciiChar, digitChar_ascii _ (Nat.mod_lt n (by norm_num))]

theorem natToStr_ascii (n : Nat) : (natToStr n).data.all isAsciiChar = true :=
  natDigitsAux_ascii (n + 1) n

theorem toNcrList_ascii (l : List Char) :
    (l.flatMap (fun c =>
      if c.toNat > 127 then ("&#" ++ natToStr c.toNat ++ ";").data else [c])).all
      isAsciiChar = true := by
  induction l with
  | nil => rfl
  | cons a t ih =>
    rw [List.flatMap_cons, List.all_append, ih, Bool.and_true]
    by_cases h : a.toNat > 127
    · rw [if_pos h]
      simp only [String.data_append, List.all_append, natToStr_ascii, Bool.and_true]
      decide
    · rw [if_neg h]
      simp only [List.all_cons, List.all_nil, Bool.and_true, isAsciiChar]
      simpa using Nat.le_of_lt_succ (by omega)

theorem frac7_digits (m : Nat) : (frac7 m).all Char.isDigit = true := by
  have hlt : ∀ x : Nat, x % 10 < 10 := fun x => Nat.mod_lt x (by norm_num)
  simp only [frac7, List.all_cons, List.all_nil, Bool.and_true, Bool.and_eq_true]
  exact ⟨digitChar_isDigit _ (hlt _), digitChar_isDigit _ (hlt _),
    digitChar_isDigit _ (hlt _), digitChar_isDigit _ (hlt _),
    digitChar_isDigit _ (hlt _), digitChar_isDigit _ (hlt _),
    digitChar_isDigit _ (hlt _)⟩

theorem applyTemplateAux_no_backslash (matched : List Char) (fuel : Nat) :
    ∀ t : List Char, t.length < fuel → '\\' ∉ t →
      applyTemplateAux matched fuel t = some t := by
  induction fuel with
  | zero => intro t hf; omega
  | succ f ih =>
    intro t hf hbs
    cases t with
    | nil => rfl
    | cons c r =>
      have hc : ¬ c = '\\' := fun h => hbs (h ▸ List.mem_cons_self c r)
      unfold applyTemplateAux
      rw [if_neg hc]
      rw [ih r (by simp at hf; omega) (fun hm => hbs (List.mem_cons_of_mem _ hm))]
      rfl

/-- A backslash-free replacement template is inserted verbatim. -/
theorem applyTemplate_no_backslash (matched t : List Char) (hbs : '\\' ∉ t) :
    applyTemplate matched t = some t :=
  applyTemplateAux_no_backslash matched (t.length + 1) t (Nat.lt_succ_self _) hbs

/-- The alias table for the C5 theorems (grain name field). -/
def c5aliases : List (String × String) := [("name", "f_g_name")]

/-- The entity span for the C5 theorems. -/
def c5xml : String := "<Grain><F_G_NAME>Old</F_G_NAME><F_G_COLOR>3</F_G_COLOR></Grain>"

/-- A string value whose escaped form still contains a backslash: the four
characters `a`, backslash, `n`, `b` (`html.escape` does not touch
backslashes). -/
def c5bsVal : String := "a\\nb"

/-- Counterexample for C5: the claim says the first occurrence of the tag
span is replaced with the coerced value.  The coerced value is placed
inside the `re.sub` replacement template, whose escape processing rewrites
backslash sequences: for the value `a\\nb` the span receives `a`, a real
newline, `b` instead of the coerced four characters, and a value such as
`a\\sb` makes `re.sub` raise instead of updating. -/
theorem updateXmlFields_counterexample :
    coerceValue (.vstr c5bsVal) = c5bsVal
    ∧ updateXmlFields c5aliases c5xml [("name", .vstr c5bsVal)]
      = some "<Grain><F_G_NAME>a\nb</F_G_NAME><F_G_COLOR>3</F_G_COLOR></Grain>"
    ∧ ("<Grain><F_G_NAME>a\nb</F_G_NAME><F_G_COLOR>3</F_G_COLOR></Grain>" : String)
      ≠ "<Grain><F_G_NAME>" ++ c5bsVal ++ "</F_G_NAME><F_G_COLOR>3</F_G_COLOR></Grain>"
    ∧ updateXmlFields c5aliases c5xml [("name", .vstr "a\\sb")] = none := by
  refine ⟨by decide, by decide, by decide, by decide⟩

/-- C5 (amended): over a located entity text span, the field update coerces
the new value (string entity-escaped with every non-ASCII character turned
into a numeric reference, so the coerced text is pure ASCII; boolean to
1/0; float to a form with exactly seven fractional digits) and substitutes
the first inline occurrence of the resolved tag span through the `re.sub`
replacement template.  Whenever the resolved tags and the coerced value
contain no backslash — which holds for every boolean, float and integer
value, and for every string value without backslashes — the span receives
exactly the coerced value: the text decomposes as
`pre ++ open ++ inner ++ close ++ post`, the update rewrites only the inner
payload, every byte of `pre` and `post` is unchanged, and no well-formed
span starts earlier than the replaced one. -/
theorem updateXmlFields_frame (aliases : List (String × String)) (xml : String)
    (fname : String) (v : UpdVal) (pre inner post : List Char)
    (hspan : findTagSpan (openTagOf aliases fname) (closeTagOf aliases fname)
      xml.data = some (pre, inner, post))
    (hbso : '\\' ∉ openTagOf aliases fname)
    (hbsc : '\\' ∉ closeTagOf aliases fname)
    (hbsv : '\\' ∉ (coerceValue v).data) :
    xml.data
      = pre ++ (openTagOf aliases fname ++ (inner ++ (closeTagOf aliases fname ++ post)))
    ∧ updateXmlFields aliases xml [(fname, v)]
      = some ⟨pre ++ (openTagOf aliases fname ++ ((coerceValue v).data
          ++ (closeTagOf aliases fname ++ post)))⟩
    ∧ (∀ pre2 inner2 post2,
        xml.data = pre2 ++ (openTagOf aliases fname
          ++ (inner2 ++ (closeTagOf aliases fname ++ post2))) →
        '\n' ∉ inner2 → pre.length ≤ pre2.length)
    ∧ (∀ b, coerceValue (.vbool b) = if b then "1" else "0")
    ∧ (∀ s, (coerceValue (.vstr s)).data.all isAsciiChar = true)
    ∧ (∀ q : ℚ, ∃ ip m, coerceValue (.vfloat q) = ip ++ "." ++ (⟨frac7 m⟩ : String)
        ∧ (frac7 m).length = 7 ∧ (frac7 m).all Char.isDigit = true) := by
  obtain ⟨hd, hnl⟩ := findTagSpan_decomp hspan
  have htpl : applyTemplate
      (openTagOf aliases fname ++ inner ++ closeTagOf aliases fname)
      (openTagOf aliases fname ++ (coerceValue v).data ++ closeTagOf aliases fname)
      = some (openTagOf aliases fname ++ (coerceValue v).data
          ++ closeTagOf aliases fname) := by
    apply applyTemplate_no_backslash
    intro hm
    rcases List.mem_append.1 hm with hm2 | hm2
    · rcases List.mem_append.1 hm2 with hm3 | hm3
      · exact hbso hm3
      · exact hbsv hm3
    · exact hbsc hm2
  have hsub : subTagFirst (openTagOf aliases fname) (closeTagOf aliases fname)
      (coerceValue v).data xml.data
      = some (pre ++ (openTagOf aliases fname ++ (coerceValue v).data
          ++ closeTagOf aliases fname) ++ post) := by
    unfold subTagFirst
    rw [hspan]
    show (applyTemplate
        (openTagOf aliases fname ++ inner ++ closeTagOf aliases fname)
        (openTagOf aliases fname ++ (coerceValue v).data
          ++ closeTagOf aliases fname)).map (fun r => pre ++ r ++ post)
      = some (pre ++ (openTagOf aliases fname ++ (coerceValue v).data
          ++ closeTagOf aliases fname) ++ post)
    rw [htpl]
    rfl
  refine ⟨hd, ?_, findTagSpan_first hspan, fun b => rfl, fun s => toNcrList_ascii _,
    fun q => ?_⟩
  · simp only [updateXmlFields, hsub]
    simp [List.append_assoc]
  · exact ⟨(if round (q * 10000000) < 0 then "-" else "")
        ++ natToStr ((round (q * 10000000)).natAbs / 10000000),
      (round (q * 10000000)).natAbs % 10000000, rfl, rfl, frac7_digits _⟩

/-- Witness for C5 (amended): updating the grain name with a backslash-free
value replaces exactly the first `F_G_NAME` span, leaving the surrounding
bytes identical. -/
theorem updateXmlFields_frame_witness :
    updateXmlFields c5aliases c5xml [("name", .vstr "New")]
      = some ⟨"<Grain>".data ++ (openTagOf c5aliases "name"
          ++ ((coerceValue (.vstr "New")).data
            ++ (closeTagOf c5aliases "name"
              ++ "<F_G_COLOR>3</F_G_COLOR></Grain>".data)))⟩ :=
  (updateXmlFields_frame c5aliases c5xml "name" (.vstr "New")
    "<Grain>".data "Old".data "<F_G_COLOR>3</F_G_COLOR></Grain>".data
    (by decide) (by decide) (by decide) (by decide)).2.1

/-! ## Equipment duplicate-root recovery -/

/-- An equipment profile as the recovery pass handles it (its full pydantic
schema lives in the absent `models.py`; the dedup logic reads only the
name). -/
structure Equipment where
  name : String
  deriving DecidableEq, Repr

/-- Python `content.split(sep)` for a nonempty separator: split at every
left-to-right non-overlapping occurrence.  The fuel (the content length)
keeps the recursion structural. -/
def pySplitAux : Nat → List Char → List Char → List (List Char)
  | 0, s, _ => [s]
  | fuel + 1, s, sep =>
    match firstOccIdx sep s with
    | some i => s.take i :: pySplitAux fuel (s.drop (i + sep.length)) sep
    | none => [s]

/-- Python `s.split(sep)` (the source never splits on an empty separator). -/
def pySplit (s sep : String) : List String :=
  if sep = "" then [s]
  else (pySplitAux s.data.length s.data sep.data).map (fun l => ⟨l⟩)

/-- Reassembly of one extra fragment (parser.py:377-385): the part text from
its first `<Equipment>` on, then — because a split part never contains the
separator — the next part text up to its first `<`, when a next part
exists, and the closing tag. -/
def reconstructFragment (p : String) (next : Option String) : String :=
  let k := (firstOccIdx "<Equipment>".data p.data).getD 0
  let eqc : String := ⟨p.data.drop k⟩
  eqc ++
    (match next with
     | some q => ((pySplit q "<").headD "") ++ "</Equipment>"
     | none => "</Equipment>")

/-- The loop `for i, part in enumerate(parts[1:], 1)` (parser.py:375-385)
over the split parts after the first: each part containing `<Equipment>`
yields a reassembled fragment, using the following part when one exists. -/
def collectFrags : List String → List String
  | [] => []
  | [p] => if pyIn "<Equipment>" p then [reconstructFragment p none] else []
  | p :: q :: rest =>
    (if pyIn "<Equipment>" p then [reconstructFragment p (some q)] else [])
      ++ collectFrags (q :: rest)

/-- The extra top-level fragments of the raw file text beyond the first
root: split on the closing tag and reassemble each later part. -/
def extraFragments (content : String) : List String :=
  match pySplit content "</Equipment>" with
  | [] => []
  | _ :: rest => collectFrags rest

/-- Modelled from the spec: validation of an equipment record against the
Equipment schema of the absent `models.py`; the name is read through the
`f_e_name` alias. -/
def validateEquipment (r : Record) : Option Equipment :=
  match List.lookup "f_e_name" r with
  | some (.val (.str s)) => some { name := s }
  | _ => none

/-- Parsing plus validation of one reassembled fragment (parser.py:388-394):
parse with the recovery parser, require the `f_e_name` key, validate.  The
fragment parser is a parameter (lxml is external). -/
def fragItem (parseFrag : String → Option Elem)
    (validate : Record → Option Equipment) (frag : String) : Option Equipment :=
  match parseFrag frag with
  | some eqRoot =>
    let d := elementToDict eqRoot
    if (List.lookup "f_e_name" d).isSome then validate d else none
  | none => none

/-- The duplicate check and append of parser.py:396-397: append unless some
already-collected record has the same name under Python `==`, which compares
strings exactly (case-sensitively). -/
def dedupStep (acc : List Equipment) (item : Equipment) : List Equipment :=
  if acc.any (fun e => e.name == item.name) then acc else acc ++ [item]

/-- Embedding of the recovery pass of `get_equipment_profiles`
(parser.py:362-401): fold the reassembled extra fragments over the primary
extraction result, appending each parsed, validated item that passes the
dedup check. -/
def recoverEquipment (parseFrag : String → Option Elem)
    (validate : Record → Option Equipment) (content : String)
    (primary : List Equipment) : List Equipment :=
  (extraFragments content).foldl
    (fun acc frag =>
      match fragItem parseFrag validate frag with
      | some item => dedupStep acc item
      | none => acc) primary

/-- A reader for flat fragments — an outer element whose children are all
leaves — standing in for the external lxml recovery parser in concrete
witnesses; on such well-formed input the two agree. -/
def readTagName (s : List Char) : Option (List Char × List Char) :=
  match splitAtChar '>' s with
  | some (nm, rest) =>
    if nm ≠ [] ∧ ¬ nm.contains '<' ∧ ¬ nm.contains '/' then some (nm, rest) else none
  | none => none

/-- Children loop of the flat-fragment reader: leaf elements up to the
outer closing tag, skipping whitespace. -/
def parseFlatChildren : Nat → List Char → List Char → Option (List Elem)
  | 0, _, _ => none
  | fuel + 1, s, outer =>
    let s := s.dropWhile isPyWs
    if ('<' :: '/' :: (outer ++ ['>'])).isPrefixOf s then some []
    else
      match s with
      | '<' :: rest =>
        match readTagName rest with
        | some (nm, afterOpen) =>
          let text := afterOpen.takeWhile (fun c => ¬ c = '<')
          let afterText := afterOpen.dropWhile (fun c => ¬ c = '<')
          if ('<' :: '/' :: (nm ++ ['>'])).isPrefixOf afterText then
            (parseFlatChildren fuel (afterText.drop (nm.length + 3)) outer).map
              (fun kids => Elem.node ⟨nm⟩ ⟨text⟩ [] :: kids)
          else none
        | none => none
      | _ => none

/-- The flat-fragment reader itself. -/
def parseFlatFragment (str : String) : Option Elem :=
  match str.data.dropWhile isPyWs with
  | '<' :: rest =>
    match readTagName rest with
    | some (nm, afterOpen) =>
      (parseFlatChildren (str.data.length + 1) afterOpen nm).map
        (fun kids => Elem.node ⟨nm⟩ "" kids)
    | none => none
  | _ => none

/-- The raw file text of the C1 counterexample: a first root followed by a
disconnected extra `<Equipment>` fragment named `FOO`. -/
def c1content : String :=
  "<Equipment><Data></Data></Equipment>\n<Equipment>\n<F_E_NAME>FOO</F_E_NAME>\n</Equipment>\n"

/-- Counterexample for C1: the claim says the dedup compares names
case-insensitively, so an extra fragment named `FOO` must be dropped when a
record named `Foo` was already extracted.  The code compares with `==`:
the fragment is appended and both records survive, even though the two
names agree case-insensitively. -/
theorem recoverEquipment_counterexample :
    recoverEquipment parseFlatFragment validateEquipment c1content
      [{ name := "Foo" }]
      = [{ name := "Foo" }, { name := "FOO" }]
    ∧ pyLower "Foo" = pyLower "FOO" := by
  constructor <;> decide
theorem mem_name_dedupStep (acc : List Equipment) (item : Equipment) (n : String) :
    n ∈ (dedupStep acc item).map Equipment.name
      ↔ n ∈ acc.map Equipment.name ∨ n = item.name := by
  unfold dedupStep
  by_cases h : acc.any (fun e => e.name == item.name) = true
  · rw [if_pos h]
    have hmem : item.name ∈ acc.map Equipment.name := by
      rw [List.any_eq_true] at h
      obtain ⟨e, he, hn⟩ := h
      rw [beq_iff_eq] at hn
      exact hn ▸ List.mem_map_of_mem Equipment.name he
    constructor
    · exact Or.inl
    · rintro (hh | rfl)
      · exact hh
      · exact hmem
  · rw [if_neg h]
    simp

theorem nodup_dedupStep (acc : List Equipment) (item : Equipment)
    (h : (acc.map Equipment.name).Nodup) :
    ((dedupStep acc item).map Equipment.name).Nodup := by
  unfold dedupStep
  by_cases hc : acc.any (fun e => e.name == item.name) = true
  · rw [if_pos hc]; exact h
  · rw [if_neg hc]
    have hnot : item.name ∉ acc.map Equipment.name := by
      intro hmem
      apply hc
      rw [List.any_eq_true]
      obtain ⟨e, he, hn⟩ := List.mem_map.1 hmem
      exact ⟨e, he, by rw [beq_iff_eq, hn]⟩
    simp [List.nodup_append, h, hnot]

theorem recoverFold_names (parseFrag : String → Option Elem)
    (validate : Record → Option Equipment) (frags : List String) :
    ∀ acc : List Equipment,
      (((acc.map Equipment.name).Nodup →
        ((frags.foldl (fun acc frag =>
          match fragItem parseFrag validate frag with
          | some item => dedupStep acc item
          | none => acc) acc).map Equipment.name).Nodup))
      ∧ (∀ n, n ∈ (frags.foldl (fun acc frag =>
            match fragItem parseFrag validate frag with
            | some item => dedupStep acc item
            | none => acc) acc).map Equipment.name
          ↔ n ∈ acc.map Equipment.name
            ∨ n ∈ (frags.filterMap (fragItem parseFrag validate)).map Equipment.name) := by
  induction frags with
  | nil => intro acc; simp
  | cons f fs ih =>
    intro acc
    rw [List.foldl_cons, List.filterMap_cons]
    cases hf : fragItem parseFrag validate f with
    | none => exact ih acc
    | some item =>
      constructor
      · intro hnd
        exact (ih (dedupStep acc item)).1 (nodup_dedupStep acc item hnd)
      · intro n
        rw [(ih (dedupStep acc item)).2 n, mem_name_dedupStep]
        simp only [List.map_cons, List.mem_cons]
        tauto

/-- C1 (amended): the recovery pass parses each extra top-level fragment
independently, validates it, and appends it only if no already-extracted
record has the very same name under case-SENSITIVE string equality: the
result names form an exact-name dedup union of the primary names and the
valid extra-fragment names (so two valid fragments with byte-distinct names
— even names differing only in case — both survive, while byte-identical
names yield one record). -/
theorem recoverEquipment_dedup (parseFrag : String → Option Elem)
    (validate : Record → Option Equipment) (content : String)
    (primary : List Equipment)
    (hnd : (primary.map Equipment.name).Nodup) :
    ((recoverEquipment parseFrag validate content primary).map Equipment.name).Nodup
    ∧ (∀ n, n ∈ (recoverEquipment parseFrag validate content primary).map Equipment.name
        ↔ n ∈ primary.map Equipment.name
          ∨ n ∈ ((extraFragments content).filterMap
              (fragItem parseFrag validate)).map Equipment.name) := by
  have h := recoverFold_names parseFrag validate (extraFragments content) primary
  exact ⟨h.1 hnd, h.2⟩

/-- Witness for C1 (amended): on the concrete file text with primary record
`Foo` and extra fragment `FOO`, the result names are pairwise distinct and
`FOO` is present. -/
theorem recoverEquipment_dedup_witness :
    ((recoverEquipment parseFlatFragment validateEquipment c1content
      [{ name := "Foo" }]).map Equipment.name).Nodup
    ∧ ("FOO" ∈ (recoverEquipment parseFlatFragment validateEquipment c1content
        [{ name := "Foo" }]).map Equipment.name
      ↔ "FOO" ∈ ([{ name := "Foo" }] : List Equipment).map Equipment.name
        ∨ "FOO" ∈ ((extraFragments c1content).filterMap
            (fragItem parseFlatFragment validateEquipment)).map Equipment.name) :=
  ⟨(recoverEquipment_dedup parseFlatFragment validateEquipment c1content
      [{ name := "Foo" }] (by decide)).1,
   (recoverEquipment_dedup parseFlatFragment validateEquipment c1content
      [{ name := "Foo" }] (by decide)).2 "FOO"⟩
/-! ## Ingredient update: backup, scan, not-found error -/

/-- The fatal errors `update_ingredient` can raise. -/
inductive UpdErr where
  | invalidType
  | fileNotFound
  | noElements
  | notFound
  deriving DecidableEq, Repr

/-- The type table of `update_ingredient` (parser.py:1088-1093): ingredient
type to catalog filename and item tag. -/
def typeMap (t : String) : Option (String × String) :=
  if pyLower t = "grain" then some ("Grain.bsmx", "Grain")
  else if pyLower t = "hop" then some ("Hop.bsmx", "Hop")
  else if pyLower t = "yeast" then some ("Yeast.bsmx", "Yeast")
  else if pyLower t = "misc" then some ("Misc.bsmx", "Misc")
  else none

/-- Scan for the first occurrence of `close`, DOTALL style (newlines are
ordinary characters): consumed text and rest after the closing tag. -/
def scanCloseAny (close s : List Char) : Option (List Char × List Char) :=
  if close.isPrefixOf s then some ([], s.drop close.length)
  else
    match s with
    | [] => none
    | c :: t => (scanCloseAny close t).map (fun p => (c :: p.1, p.2))

/-- `re.finditer(open .*? close, DOTALL)`: the left-to-right non-overlapping
lazy matches; fuel (the text length) keeps the recursion structural. -/
def findChunksAux : Nat → List Char → List Char → List Char → List (List Char)
  | 0, _, _, _ => []
  | fuel + 1, s, openT, closeT =>
    match s with
    | [] => []
    | _ :: t =>
      if openT.isPrefixOf s then
        match scanCloseAny closeT (s.drop openT.length) with
        | some (inner, rest) =>
          (openT ++ inner ++ closeT) :: findChunksAux fuel rest openT closeT
        | none => []
      else findChunksAux fuel t openT closeT

/-- The element chunks `update_ingredient` scans (parser.py:1117-1119). -/
def findChunks (content openT closeT : String) : List String :=
  (findChunksAux content.data.length content.data openT.data closeT.data).map
    (fun l => ⟨l⟩)

/-- The per-chunk test of the search loop (parser.py:1128-1145): parse the
chunk, validate it, and compare its name to the target case-insensitively;
any failure along the way (the `except` branch) counts as no match.  The
chunk parser and the name-extracting validator are parameters (lxml is
external, the pydantic models live in the absent `models.py`). -/
def chunkMatches (parseFrag : String → Option Elem)
    (validateName : Record → Option String) (target : String) (ch : String) : Bool :=
  match parseFrag ch with
  | some root =>
    match validateName (elementToDict root) with
    | some nm => pyLower nm == pyLower target
    | none => false
  | none => false

/-- The backup file path `update_ingredient` writes (parser.py:1106). -/
def backupFileName (backupPath filename now : String) : String :=
  backupPath ++ "/" ++ replaceAll filename ".bsmx" "" ++ "_backup_" ++ now ++ ".bsmx"

/-- The search-and-update loop of parser.py:1128-1145: chunks are scanned
in order; the first chunk whose parse and validation succeed and whose name
matches case-insensitively is updated inside the same `try` block, so a
`re.error` from the replacement template is caught by the `except` branch
after the found flag was already set, and the scan continues with the
remaining chunks.  Returns the found flag and the successfully updated
(chunk, replacement) pair, if any. -/
def scanChunks (parseFrag : String → Option Elem)
    (validateName : Record → Option String) (target : String)
    (aliases : List (String × String)) (updates : List (String × UpdVal)) :
    List String → Bool → Bool × Option (String × String)
  | [], found => (found, none)
  | ch :: rest, found =>
    if chunkMatches parseFrag validateName target ch then
      match updateXmlFields aliases ch updates with
      | some upd => (true, some (ch, upd))
      | none => scanChunks parseFrag validateName target aliases updates rest true
    else scanChunks parseFrag validateName target aliases updates rest found

/-- Embedding of `BeerSmithParser.update_ingredient` (parser.py:1075-1157)
over an explicit filesystem (path to content): validate the type, require
the catalog file, copy it to a timestamped backup, scan the chunks for the
named ingredient, and either rewrite the catalog file or raise.  The first
component of the result is the filesystem after the call (Python leaves the
backup on disk when the later lookup raises); when the only matching chunk
failed inside the `try` block the found flag still suppresses the error and
the file is rewritten with its unchanged content. -/
def updateIngredient (parseFrag : String → Option Elem)
    (validateName : Record → Option String)
    (bsPath backupPath now : String)
    (fs : List (String × String))
    (ingredientType ingredientName : String)
    (aliases : List (String × String)) (updates : List (String × UpdVal)) :
    List (String × String) × Option UpdErr :=
  match typeMap ingredientType with
  | none => (fs, some .invalidType)
  | some (filename, tagName) =>
    let filePath := bsPath ++ "/" ++ filename
    match alookup filePath fs with
    | none => (fs, some .fileNotFound)
    | some content =>
      let fs1 := upsert fs (backupFileName backupPath filename now) content
      let chunks := findChunks content ("<" ++ tagName ++ ">") ("</" ++ tagName ++ ">")
      if chunks = [] then (fs1, some .noElements)
      else
        match scanChunks parseFrag validateName ingredientName aliases updates
            chunks false with
        | (true, some (ch, upd)) =>
          (upsert fs1 filePath (replaceAll content ch upd), none)
        | (true, none) => (upsert fs1 filePath content, none)
        | (false, _) => (fs1, some .notFound)

theorem alookup_map_replace (l : List (String × β)) (k k2 : String) (v : β)
    (h : k2 ≠ k) :
    alookup k2 (l.map (fun p => if p.1 == k then (k, v) else p)) = alookup k2 l := by
  induction l with
  | nil => rfl
  | cons a t ih =>
    obtain ⟨x, y⟩ := a
    simp only [List.map_cons]
    by_cases hx : ((x, y).1 == k) = true
    · rw [if_pos hx]
      have hxk : x = k := by simpa using hx
      simp only [alookup]
      rw [if_neg (fun hh => h hh.symm), if_neg (fun hh => h (hxk ▸ hh).symm)]
      exact ih
    · rw [if_neg hx]
      simp only [alookup]
      by_cases hx2 : x = k2
      · rw [if_pos hx2, if_pos hx2]
      · rw [if_neg hx2, if_neg hx2]
        exact ih

theorem alookup_append_single (l : List (String × β)) (k k2 : String) (v : β)
    (h : k2 ≠ k) :
    alookup k2 (l ++ [(k, v)]) = alookup k2 l := by
  induction l with
  | nil =>
    simp only [List.nil_append, alookup]
    rw [if_neg (fun hh => h hh.symm)]
  | cons a t ih =>
    obtain ⟨x, y⟩ := a
    simp only [List.cons_append, alookup]
    by_cases hx2 : x = k2
    · rw [if_pos hx2, if_pos hx2]
    · rw [if_neg hx2, if_neg hx2]
      exact ih

/-- Updating one key leaves every other key unchanged. -/
theorem alookup_upsert_ne (l : List (String × β)) (k k2 : String) (v : β)
    (h : k2 ≠ k) : alookup k2 (upsert l k v) = alookup k2 l := by
  unfold upsert
  by_cases hc : l.any (fun p => p.1 == k) = true
  · rw [if_pos hc]; exact alookup_map_replace l k k2 v h
  · rw [if_neg hc]; exact alookup_append_single l k k2 v h
/-- Modelled from the spec: a name-extracting validator reading the entity
name through its schema alias (for grain, `f_g_name`), standing in for
`model_class.model_validate(...).name` of the absent `models.py`. -/
def validateNameVia (key : String) (r : Record) : Option String :=
  match List.lookup key r with
  | some (.val (.str s)) => some s
  | _ => none

/-- The grain catalog content of the C4 counterexample: one grain named
`Barley`. -/
def c4content : String := "<Grain>\n<F_G_NAME>Barley</F_G_NAME>\n</Grain>"

/-- The filesystem of the C4 counterexample. -/
def c4fs : List (String × String) := [("BS/Grain.bsmx", c4content)]

/-- Counterexample for C4: updating a grain that does not occur in the
catalog raises the not-found error, but the filesystem is no longer the one
before the call — the backup copy was created before the lookup, so a file
is created before the error is raised, contrary to the claim. -/
theorem updateIngredient_counterexample :
    (updateIngredient parseFlatFragment (validateNameVia "f_g_name")
      "BS" "BS/mcp_backups" "T1" c4fs "grain" "Missing" [] []).2
      = some UpdErr.notFound
    ∧ (updateIngredient parseFlatFragment (validateNameVia "f_g_name")
        "BS" "BS/mcp_backups" "T1" c4fs "grain" "Missing" [] []).1 ≠ c4fs
    ∧ alookup "BS/mcp_backups/Grain_backup_T1.bsmx"
        (updateIngredient parseFlatFragment (validateNameVia "f_g_name")
          "BS" "BS/mcp_backups" "T1" c4fs "grain" "Missing" [] []).1
      = some c4content := by
  refine ⟨by decide, by decide, by decide⟩

/-- C4 (amended): when the named ingredient does not occur in the target
catalog file, `update_ingredient` raises a fatal error and the target file
itself is never modified; however, the backup copy of the target file is
created before the lookup, so exactly that one new file exists when the
error is raised. -/
theorem updateIngredient_notFound (parseFrag : String → Option Elem)
    (validateName : Record → Option String)
    (bsPath backupPath now : String) (fs : List (String × String))
    (ingredientType ingredientName : String)
    (aliases : List (String × String)) (updates : List (String × UpdVal))
    (filename tagName content : String)
    (htype : typeMap ingredientType = some (filename, tagName))
    (hfile : alookup (bsPath ++ "/" ++ filename) fs = some content)
    (hnomatch : ∀ ch ∈ findChunks content ("<" ++ tagName ++ ">") ("</" ++ tagName ++ ">"),
      chunkMatches parseFrag validateName ingredientName ch = false)
    (hne : bsPath ++ "/" ++ filename ≠ backupFileName backupPath filename now) :
    ∃ e, updateIngredient parseFrag validateName bsPath backupPath now fs
        ingredientType ingredientName aliases updates
      = (upsert fs (backupFileName backupPath filename now) content, some e)
    ∧ (e = UpdErr.noElements ∨ e = UpdErr.notFound)
    ∧ alookup (bsPath ++ "/" ++ filename)
        (upsert fs (backupFileName backupPath filename now) content) = some content := by
  have htarget : alookup (bsPath ++ "/" ++ filename)
      (upsert fs (backupFileName backupPath filename now) content) = some content := by
    rw [alookup_upsert_ne _ _ _ _ hne, hfile]
  have hgen : ∀ l : List String,
      (∀ ch ∈ l, chunkMatches parseFrag validateName ingredientName ch = false) →
      ∀ b, scanChunks parseFrag validateName ingredientName aliases updates l b
        = (b, none) := by
    intro l
    induction l with
    | nil => intro _ b; rfl
    | cons ch rest ih =>
      intro hno b
      unfold scanChunks
      rw [if_neg (by rw [hno ch (List.mem_cons_self ch rest)]; exact Bool.false_ne_true)]
      exact ih (fun x hx => hno x (List.mem_cons_of_mem _ hx)) b
  have hscan : ∀ b, scanChunks parseFrag validateName ingredientName aliases updates
      (findChunks content ("<" ++ tagName ++ ">") ("</" ++ tagName ++ ">")) b
      = (b, none) := hgen _ hnomatch
  have hbody :
      updateIngredient parseFrag validateName bsPath backupPath now fs
        ingredientType ingredientName aliases updates
      = (if findChunks content ("<" ++ tagName ++ ">") ("</" ++ tagName ++ ">") = [] then
          (upsert fs (backupFileName backupPath filename now) content,
            some UpdErr.noElements)
        else
          match scanChunks parseFrag validateName ingredientName aliases updates
              (findChunks content ("<" ++ tagName ++ ">") ("</" ++ tagName ++ ">"))
              false with
          | (true, some (ch, upd)) =>
            (upsert (upsert fs (backupFileName backupPath filename now) content)
              (bsPath ++ "/" ++ filename) (replaceAll content ch upd), none)
          | (true, none) =>
            (upsert (upsert fs (backupFileName backupPath filename now) content)
              (bsPath ++ "/" ++ filename) content, none)
          | (false, _) =>
            (upsert fs (backupFileName backupPath filename now) content,
              some UpdErr.notFound)) := by
    unfold updateIngredient
    rw [htype]
    simp only [hfile]
  by_cases hchunks :
      findChunks content ("<" ++ tagName ++ ">") ("</" ++ tagName ++ ">") = []
  · refine ⟨UpdErr.noElements, ?_, Or.inl rfl, htarget⟩
    rw [hbody, if_pos hchunks]
  · refine ⟨UpdErr.notFound, ?_, Or.inr rfl, htarget⟩
    rw [hbody, if_neg hchunks, hscan false]

/-- Witness for C4 (amended): the concrete grain catalog, a missing name,
and the resulting error with only the backup file added. -/
theorem updateIngredient_notFound_witness :
    ∃ e, updateIngredient parseFlatFragment (validateNameVia "f_g_name")
        "BS" "BS/mcp_backups" "T1" c4fs "grain" "Missing" [] []
      = (upsert c4fs (backupFileName "BS/mcp_backups" "Grain.bsmx" "T1") c4content,
        some e)
    ∧ (e = UpdErr.noElements ∨ e = UpdErr.notFound)
    ∧ alookup ("BS" ++ "/" ++ "Grain.bsmx")
        (upsert c4fs (backupFileName "BS/mcp_backups" "Grain.bsmx" "T1") c4content)
      = some c4content :=
  updateIngredient_notFound parseFlatFragment (validateNameVia "f_g_name")
    "BS" "BS/mcp_backups" "T1" c4fs "grain" "Missing" [] []
    "Grain.bsmx" "Grain" c4content (by decide) (by decide) (by decide) (by decide)
/-! ## Appending a recipe to Recipe.bsmx -/

/-- First occurrence of `needle` at or after `start`, as an absolute index. -/
def firstOccFrom (needle s : List Char) (start : Nat) : Option Nat :=
  (firstOccIdx needle (s.drop start)).map (· + start)

/-- Model of the folder search
`re.search(r"<Table>.*?<Name>MCP Created</Name>.*?<Data>(.*?)</Data>.*?</Table>", DOTALL)`
(parser.py:1024-1030), returning `match.end(1)` — the index where the
matched `</Data>` starts.  Lazy quantifiers take the first following
occurrence at each step: the first `<Name>MCP Created</Name>` after a
`<Table>`, the first `<Data>` after it, the first `</Data>` after that, and
some `</Table>` beyond; when the chain fails the scan restarts after the
candidate `<Table>`. -/
def findMCPSpliceAux : Nat → List Char → Nat → Option Nat
  | 0, _, _ => none
  | fuel + 1, s, pos =>
    match firstOccFrom "<Table>".data s pos with
    | none => none
    | some t =>
      match firstOccFrom "<Name>MCP Created</Name>".data s (t + 7) with
      | none => none
      | some n =>
        match firstOccFrom "<Data>".data s (n + 24) with
        | none => none
        | some d =>
          match firstOccFrom "</Data>".data s (d + 6) with
          | none => none
          | some e =>
            match firstOccFrom "</Table>".data s (e + 7) with
            | some _ => some e
            | none => findMCPSpliceAux fuel s (t + 1)

/-- The folder-splice search on the whole file text. -/
def findMCPSplice (content : String) : Option Nat :=
  findMCPSpliceAux (content.data.length + 1) content.data 0

/-- Require a literal prefix and return the rest. -/
def expectPrefix (p s : List Char) : Option (List Char) :=
  if p.isPrefixOf s then some (s.drop p.length) else none

/-- Skip to the next `<` (the greedy `[^<]*` of the anchor pattern). -/
def skipNonLt (s : List Char) : List Char := s.dropWhile (fun c => ¬ c = '<')

/-- Match `</[^>]+>` — a closing tag with a nonempty name. -/
def closeAnyTag (s : List Char) : Option (List Char) :=
  match expectPrefix "</".data s with
  | some r =>
    let b := r.takeWhile (fun c => ¬ c = '>')
    if b = [] then none
    else
      match r.dropWhile (fun c => ¬ c = '>') with
      | '>' :: rest => some rest
      | _ => none
  | none => none

/-- Whether the insertion-anchor pattern of parser.py:1058 matches at the
start of `s`: a closing `</Data>`, a whitespace run containing a newline,
then the `<_TExpanded>`, `<TExtra>` and `<TxLog>1</TxLog>` trailer tags. -/
def matchAnchorAt (s : List Char) : Bool :=
  (do
    let r1 ← expectPrefix "</Data>".data s
    let w := r1.takeWhile isPyWs
    let r2 := r1.dropWhile isPyWs
    if ¬ w.contains '\n' then none else
    let r3 ← expectPrefix "<_TExpanded>".data r2
    let r4 ← closeAnyTag (skipNonLt r3)
    let r5 ← expectPrefix "<TExtra>".data (skipNonLt r4)
    let r6 ← closeAnyTag (skipNonLt r5)
    let _ ← expectPrefix "<TxLog>1</TxLog>".data (skipNonLt r6)
    some ()).isSome

/-- Leftmost match position of the anchor pattern (`re.search` semantics:
`match.start()`, the index where the `</Data>` begins). -/
def findAnchorAux : List Char → Option Nat
  | [] => none
  | c :: t =>
    if matchAnchorAt (c :: t) then some 0 else (findAnchorAux t).map (· + 1)

def findAnchor (content : String) : Option Nat := findAnchorAux content.data

/-- The new folder wrapper of parser.py:1034-1053, byte for byte, with the
current date as a parameter. -/
def mkFolderXml (now recipeXml : String) : String :=
  "<Table><_PERMID_>9999</_PERMID_>\n<_MOD_>" ++ now
    ++ "</_MOD_>\n<Name>MCP Created</Name>\n<Type>7372</Type>\n<Dirty>1</Dirty>\n"
    ++ "<Owndata>1</Owndata>\n<TID>9999</TID>\n<Size>1</Size>\n"
    ++ "<_XName>Folder</_XName>\n<Allocinc>16</Allocinc>\n<Data>" ++ recipeXml
    ++ "</Data>\n<_TExpanded>1</_TExpanded>\n<TExtra>0</TExtra>\n<TxLog>0</TxLog>\n"
    ++ "<PermCount>0</PermCount>\n<TxCount>0</TxCount>\n<TxTable>0</TxTable>\n"
    ++ "<TxPath></TxPath>\n</Table>\n"

/-- Embedding of the splicing logic of
`BeerSmithParser.add_recipe_to_beersmith` (parser.py:1017-1066) on the file
content: if the `MCP Created` folder pattern matches, insert the fragment at
the end of the matched group; otherwise build the folder wrapper and insert
it at the anchor; with no anchor the operation fails. -/
def addRecipeContent (content recipeXml now : String) : Option String :=
  match findMCPSplice content with
  | some e =>
    some ⟨content.data.take e ++ recipeXml.data ++ content.data.drop e⟩
  | none =>
    match findAnchor content with
    | some i =>
      some ⟨content.data.take i ++ (mkFolderXml now recipeXml).data
        ++ content.data.drop i⟩
    | none => none

/-- Count of non-overlapping occurrences, left to right. -/
def countOccurAux : Nat → List Char → List Char → Nat
  | 0, _, _ => 0
  | fuel + 1, s, needle =>
    match firstOccIdx needle s with
    | some i => 1 + countOccurAux fuel (s.drop (i + needle.length)) needle
    | none => 0

def countOccur (needle hay : String) : Nat :=
  countOccurAux hay.data.length hay.data needle.data

/-- The Recipe.bsmx skeleton of the C7 scenario: a main data section closed
by the standard trailer, which is exactly what the insertion anchor
matches. -/
def c7skeleton : String :=
  "<Selections><Data>\n</Data>\n<_TExpanded>1</_TExpanded>\n<TExtra>0</TExtra>\n<TxLog>1</TxLog>\n</Selections>"

/-- A generated recipe fragment named R1.  Every fragment
`_generate_recipe_xml` emits contains the inner
`<Ingredients>\n<Data>\n...\n</Data>\n</Ingredients>` block
(parser.py:916-953), which is what this shape preserves. -/
def c7recipe1 : String :=
  "<Recipe><F_R_NAME>R1</F_R_NAME><Ingredients>\n<Data>\n</Data>\n</Ingredients>\n</Recipe>"

/-- A second generated recipe fragment, named R2. -/
def c7recipe2 : String :=
  "<Recipe><F_R_NAME>R2</F_R_NAME><Ingredients>\n<Data>\n</Data>\n</Ingredients>\n</Recipe>"

/-- The file after the first append: one new folder wrapper holding exactly
the first fragment, spliced at the anchor. -/
def c7after1 : String :=
  "<Selections><Data>\n" ++ mkFolderXml "D" c7recipe1
    ++ "</Data>\n<_TExpanded>1</_TExpanded>\n<TExtra>0</TExtra>\n<TxLog>1</TxLog>\n</Selections>"

/-- The file after the second append: the second fragment has landed inside
the FIRST fragment, between its `<Ingredients>` data open and close, because
the lazy `(.*?)</Data>` group of the folder pattern ends at the first
`</Data>` after the folder data opens — which is the inner one of the first
recipe. -/
def c7after2 : String :=
  "<Selections><Data>\n"
    ++ mkFolderXml "D"
      ("<Recipe><F_R_NAME>R1</F_R_NAME><Ingredients>\n<Data>\n" ++ c7recipe2
        ++ "</Data>\n</Ingredients>\n</Recipe>")
    ++ "</Data>\n<_TExpanded>1</_TExpanded>\n<TExtra>0</TExtra>\n<TxLog>1</TxLog>\n</Selections>"

set_option maxRecDepth 100000 in
set_option maxHeartbeats 2000000 in
/-- C7 evaluated on the failing input: the first append creates exactly one
folder wrapper containing exactly the first fragment, and the second append
creates no second wrapper — both as the claim says — but the second fragment
is spliced into the first fragment's inner ingredients data block, not into
the folder's data container: the folder data is never `r1` followed by
`r2`.  This contradicts the code's own comment (parser.py:1029-1030), so the
code, not the claim, is wrong. -/
theorem addRecipeContent_nested_splice :
    addRecipeContent c7skeleton c7recipe1 "D" = some c7after1
    ∧ countOccur "<Table>" c7after1 = 1
    ∧ pyIn ("<Data>" ++ c7recipe1 ++ "</Data>") c7after1 = true
    ∧ addRecipeContent c7after1 c7recipe2 "D" = some c7after2
    ∧ countOccur "<Table>" c7after2 = 1
    ∧ pyIn (c7recipe2 ++ "</Data>\n</Ingredients>\n</Recipe>") c7after2 = true
    ∧ ¬ pyIn (c7recipe1 ++ c7recipe2) c7after2 = true := by
  refine ⟨by decide, by decide, by decide, by decide, by decide, by decide, by decide⟩
end BeerSmith
